import Mathlib

/-!
Shallow embedding of the IHC structuring engine (`src/ihc_tool/ihc_engine.py`)
and proofs about its specified behaviour.

Modelling conventions:
* Texts are Lean `String`s / `List Char`; Python's `\w`, `\s`, `str.lower()` are
  modelled by the ASCII predicates below (the engine's keyword patterns and the
  clinical inputs of interest are ASCII).
* Percent values are 1-3 digit integers or entries of the fixed word table, all
  exactly representable, so Python `float` percents are modelled by `Nat`.
* The specific regular expressions of the source are compiled by hand into
  deterministic matchers; each matcher documents the regex it embeds, including
  its (lack of) backtracking: every `\s+`/`\w+`/`\d+` in those regexes is
  followed by an atom that cannot match its own character class, so greedy
  maximal munch is exact.
-/

namespace IHC

/-- ASCII model of the regex class `\w` (letters, digits, underscore). -/
def isWordChar (c : Char) : Bool := c.isAlphanum || c = '_'

/-- ASCII model of the regex class `\s` / Python `str.strip()` whitespace. -/
def isSpaceChar (c : Char) : Bool := c.isWhitespace

/-- Wordness of an optional character; out of range counts as non-word. -/
def wordO : Option Char → Bool
  | some c => isWordChar c
  | none => false

/-- Python `str.lower()` on the character list (ASCII). -/
def lowerList (cs : List Char) : List Char := cs.map Char.toLower

/-- Remove characters satisfying `p` from both ends (Python `str.strip(...)`). -/
def dropEnds (p : Char → Bool) (cs : List Char) : List Char :=
  ((cs.dropWhile p).reverse.dropWhile p).reverse

/-- Match a literal at the head of a list, returning the remaining suffix. -/
def chopLit : List Char → List Char → Option (List Char)
  | [], cs => some cs
  | _ :: _, [] => none
  | p :: ps, c :: cs => if p = c then chopLit ps cs else none

/-- Leading whitespace: its length and the remaining suffix. -/
def takeWs (cs : List Char) : Nat × List Char :=
  ((cs.takeWhile isSpaceChar).length, cs.dropWhile isSpaceChar)

/-- Leading maximal `\w+` run and the remaining suffix. -/
def takeWordRun (cs : List Char) : List Char × List Char :=
  (cs.takeWhile isWordChar, cs.dropWhile isWordChar)

/-- Leading maximal `\d+` run and the remaining suffix. -/
def takeDigitRun (cs : List Char) : List Char × List Char :=
  (cs.takeWhile Char.isDigit, cs.dropWhile Char.isDigit)

/-- Leading maximal `[A-Za-z]+` run and the remaining suffix. -/
def takeLetterRun (cs : List Char) : List Char × List Char :=
  (cs.takeWhile Char.isAlpha, cs.dropWhile Char.isAlpha)

/-- Numeric value of a digit run. -/
def digitsToNat (ds : List Char) : Nat :=
  ds.foldl (fun n c => n * 10 + (c.toNat - '0'.toNat)) 0

/-- A piece of one regex alternative: a literal string or a `\s+` gap. -/
inductive Atom
  | lit : List Char → Atom
  | ws : Atom

/-- Match a sequence of atoms at the head of the list, returning the number of
characters consumed.  `\s+` gaps take the maximal whitespace run, which is exact
because every following atom in the engine's patterns starts with a
non-whitespace character. -/
def matchAtoms : List Atom → List Char → Option Nat
  | [], _ => some 0
  | .lit s :: rest, cs =>
    match chopLit s cs with
    | some cs' => (matchAtoms rest cs').map (· + s.length)
    | none => none
  | .ws :: rest, cs =>
    let (n, cs') := takeWs cs
    if n = 0 then none else (matchAtoms rest cs').map (· + n)

/-- One alternative of a `\b(..|..)\b` keyword regex tested at one position.
All of the engine's keyword alternatives start and end with word characters, so
the two `\b`s reduce to: previous character non-word, character after the match
non-word. -/
def altMatchesAt (alt : List Atom) (prev : Option Char) (cs : List Char) : Bool :=
  match matchAtoms alt cs with
  | some n => !wordO prev && !wordO (cs.drop n).head?
  | none => false

/-- Generic leftmost search: try `f` at every position, carrying the previous
character for boundary checks.  (None of the engine's matchers can match at the
end-of-string position, as each consumes at least one character.) -/
def searchO {α : Type} (f : Option Char → List Char → Option α) :
    Option Char → List Char → Option α
  | _, [] => none
  | prev, c :: rest =>
    match f prev (c :: rest) with
    | some v => some v
    | none => searchO f (some c) rest

/-- `re.search` of a `\b(alt|..|alt)\b` keyword regex, as a Boolean. -/
def containsAlt (alts : List (List Atom)) (cs : List Char) : Bool :=
  (searchO (fun prev s => if alts.any (fun a => altMatchesAt a prev s) then some () else none)
    none cs).isSome

/-- `re.search` of `\b(w1|..|wk)\b` returning the captured word of the leftmost
match, trying alternatives in order at each position (Python semantics). -/
def firstWordAlt (words : List (List Char)) (cs : List Char) : Option (List Char) :=
  searchO (fun prev s => words.find? (fun w => altMatchesAt [Atom.lit w] prev s)) none cs

/-- `\b(\w+|\d+)\s+to\s+(\w+|\d+)\s+percent\b` tested at one position
(`_parse_percent`, line 79). -/
def rangeMatchAt (prev : Option Char) (cs : List Char) : Bool :=
  if wordO prev then false else
  let (r1, t1) := takeWordRun cs
  if r1.isEmpty then false else
  let (w1, t2) := takeWs t1
  if w1 = 0 then false else
  match chopLit ['t', 'o'] t2 with
  | none => false
  | some t3 =>
    let (w2, t4) := takeWs t3
    if w2 = 0 then false else
    let (r2, t5) := takeWordRun t4
    if r2.isEmpty then false else
    let (w3, t6) := takeWs t5
    if w3 = 0 then false else
    match chopLit "percent".toList t6 with
    | none => false
    | some t7 => !wordO t7.head?

/-- `\b(\d{1,3})\s*%\b` tested at one position (`_parse_percent`, line 82).
Note the faithful modelling of the source's trailing `\b`: since `%` is a
non-word character, the boundary demands a WORD character right after `%`. -/
def pctSignAt (prev : Option Char) (cs : List Char) : Option Nat :=
  if wordO prev then none else
  let (ds, t1) := takeDigitRun cs
  if ds.isEmpty || decide (ds.length > 3) then none else
  let (_, t2) := takeWs t1
  match t2 with
  | '%' :: t3 => if wordO t3.head? then some (digitsToNat ds) else none
  | _ => none

/-- `\b(\d{1,3})\s+percent\b` tested at one position (`_parse_percent`, line 82). -/
def pctWordAt (prev : Option Char) (cs : List Char) : Option Nat :=
  if wordO prev then none else
  let (ds, t1) := takeDigitRun cs
  if ds.isEmpty || decide (ds.length > 3) then none else
  let (w, t2) := takeWs t1
  if w = 0 then none else
  match chopLit "percent".toList t2 with
  | some t3 => if wordO t3.head? then none else some (digitsToNat ds)
  | none => none

/-- `\b(\w+)\s+percent\b` tested at one position, returning the captured word
(`_parse_percent`, line 85). -/
def spelledPctAt (prev : Option Char) (cs : List Char) : Option (List Char) :=
  if wordO prev then none else
  let (r, t1) := takeWordRun cs
  if r.isEmpty then none else
  let (w, t2) := takeWs t1
  if w = 0 then none else
  match chopLit "percent".toList t2 with
  | some t3 => if wordO t3.head? then none else some r
  | none => none

/-- The fixed word-to-integer table `WORDS` (lines 19-31). -/
def WORDS : List (List Char × Nat) :=
  [("zero".toList, 0), ("ten".toList, 10), ("twenty".toList, 20), ("thirty".toList, 30),
   ("forty".toList, 40), ("fifty".toList, 50), ("sixty".toList, 60), ("seventy".toList, 70),
   ("eighty".toList, 80), ("ninety".toList, 90), ("hundred".toList, 100)]

/-- `_to_num_word` (lines 70-74); the token is already lowercase and
whitespace-free since it is a word run of a lowered text. -/
def toNumWord (w : List Char) : Option Nat :=
  (WORDS.find? (fun p => p.1 == w)).map (·.2)

/-- `_parse_percent` (lines 77-90). -/
def parsePercent (text : String) : Option Nat × Bool :=
  let t := lowerList text.toList
  if (searchO (fun p s => if rangeMatchAt p s then some () else none) none t).isSome then
    (none, true)
  else
    match searchO pctSignAt none t with
    | some v => (some v, false)
    | none =>
      match searchO pctWordAt none t with
      | some v => (some v, false)
      | none =>
        match searchO spelledPctAt none t with
        | some w =>
          match toNumWord w with
          | some v => (some v, false)
          | none => (none, false)
        | none => (none, false)

/-- `\b<literal>\b` tested at one position, with Python's general word-boundary
semantics: a boundary holds where the wordness of adjacent characters differs
(out of range counts as non-word).  The first condition compares the previous
character with the text character at the position; when the literal is empty
the second boundary coincides with the first. -/
def litBMatchAt (lit : List Char) (prev : Option Char) (cs : List Char) : Bool :=
  match chopLit lit cs with
  | none => false
  | some rest =>
    (wordO prev != wordO cs.head?) &&
    (match lit.getLast? with
     | none => true
     | some lc => wordO (some lc) != wordO rest.head?)

/-- `re.finditer(rf"\b{re.escape(alias)}\b", text)`: all non-overlapping
matches, leftmost first; after a non-empty match the scan resumes at its end,
after a zero-length match it advances one character (Python semantics).
The fuel argument only serves termination; every step consumes at least one
character, so `cs.length + 1` is always sufficient. -/
def finditGo (lit : List Char) : Nat → Option Char → Nat → List Char → List (Nat × Nat)
  | 0, _, _, _ => []
  | _ + 1, prev, i, [] => if litBMatchAt lit prev [] then [(i, i)] else []
  | fuel + 1, prev, i, c :: rest =>
    if litBMatchAt lit prev (c :: rest) then
      match lit with
      | [] => (i, i) :: finditGo lit fuel (some c) (i + 1) rest
      | l :: ls =>
        (i, i + (l :: ls).length) ::
          finditGo lit fuel ((l :: ls).getLast?) (i + (l :: ls).length) (rest.drop ls.length)
    else finditGo lit fuel (some c) (i + 1) rest

/-- All `\b<lit>\b` match spans in `cs`. -/
def findIter (lit : List Char) (cs : List Char) : List (Nat × Nat) :=
  finditGo lit (cs.length + 1) none 0 cs

/-- `UNKNOWN_MARKER_RE` = `\b([A-Za-z]{2,}\d*)\s+(?:positive|negative)\b`
tested at one position (case-sensitive, as in the source): returns the captured
token and the remaining suffix after the whole match. -/
def unknownAt (prev : Option Char) (cs : List Char) : Option (List Char × List Char) :=
  if wordO prev then none else
  let (ls, t1) := takeLetterRun cs
  if decide (ls.length < 2) then none else
  let (ds, t2) := takeDigitRun t1
  let (w, t3) := takeWs t2
  if w = 0 then none else
  match chopLit "positive".toList t3 with
  | some t4 => if wordO t4.head? then none else some (ls ++ ds, t4)
  | none =>
    match chopLit "negative".toList t3 with
    | some t4 => if wordO t4.head? then none else some (ls ++ ds, t4)
    | none => none

/-- `UNKNOWN_MARKER_RE.finditer(clause)`: the captured tokens of all
non-overlapping matches.  Every match ends in `...e`, hence the previous
character after a skip is `'e'`.  Fuel as in `finditGo`. -/
def unknownGo : Nat → Option Char → List Char → List (List Char)
  | 0, _, _ => []
  | _ + 1, _, [] => []
  | fuel + 1, prev, c :: rest =>
    match unknownAt prev (c :: rest) with
    | some (tok, rem) => tok :: unknownGo fuel (some 'e') rem
    | none => unknownGo fuel (some c) rest

/-- All `UNKNOWN_MARKER_RE` captured tokens in a clause. -/
def unknownIter (cs : List Char) : List (List Char) :=
  unknownGo (cs.length + 1) none cs

/-- `re.sub(r"\s+", " ", ·)`: collapse every whitespace run to a single space.
The flag records whether the previous character belonged to a run already
replaced. -/
def collapseWs : Bool → List Char → List Char
  | _, [] => []
  | inRun, c :: cs =>
    if isSpaceChar c then
      if inRun then collapseWs true cs else ' ' :: collapseWs true cs
    else c :: collapseWs false cs

/-- Alias normalisation of `_load_dict` (line 66):
`re.sub(r"\s+", " ", alias.strip().lower())`. -/
def normAlias (a : String) : String :=
  ⟨collapseWs false (dropEnds isSpaceChar (lowerList a.toList))⟩

/-- Insertion-ordered dictionary insert (Python `dict` semantics: overwriting a
key keeps its original position, a new key is appended at the end). -/
def dictInsert {β : Type} (k : String) (v : β) : List (String × β) → List (String × β)
  | [] => [(k, v)]
  | (k', v') :: rest => if k' = k then (k', v) :: rest else (k', v') :: dictInsert k v rest

/-- Dictionary lookup (first occurrence of the key). -/
def lookupD {β : Type} (m : List (String × β)) (k : String) : Option β :=
  (m.find? (fun p => p.1 == k)).map (·.2)

/-- A marker definition from the parsed dictionary (`MarkerDef`, lines 34-41).
`requirements` is the `dict[str, bool]`; Python `req.get(key)` truthiness is
`reqGet` below. -/
structure MarkerDef where
  marker_canonical : String
  display_name : String
  aliases : List String
  hard_pattern_enforce : Bool
  allowed_patterns : List String
  requirements : List (String × Bool)
deriving DecidableEq

/-- Python `requirements.get(key)` truthiness (missing key counts as false). -/
def reqGet (r : List (String × Bool)) (k : String) : Bool :=
  ((r.find? (fun p => p.1 == k)).map (·.2)).getD false

/-- One evidence record (line 253: span fields are always `None`). -/
structure Evidence where
  text_span : String
  start_char : Option Nat
  end_char : Option Nat
deriving DecidableEq

/-- The running per-marker state (`MarkerState`, lines 44-57). -/
structure MarkerState where
  marker_name : String
  marker_canonical : String
  result : Option String := none
  pattern : Option String := none
  intensity : Option String := none
  percent_positive : Option Nat := none
  extent : Option String := none
  controls : String := "not mentioned"
  comment : Option String := none
  confidence : String := "explicit"
  evidence : List Evidence := []
  percent_approximate : Bool := false
deriving DecidableEq

/-- A validation issue record as appended by the engine. -/
structure Issue where
  code : String
  message : String
  severity : String
  marker_canonical : Option String
  field : Option String
deriving DecidableEq

/-- The attributes extracted from a text span (`_extract_clause_data` output). -/
structure Extracted where
  result : Option String
  pattern : Option String
  intensity : Option String
  extent : Option String
  percent_positive : Option Nat
  percent_approximate : Bool
  controls : String
  confidence : String
deriving DecidableEq

/-- The optional `context` mapping of a case record. -/
structure Context where
  specimen_id : Option String := none
  case_id : Option String := none
  panel_hint : Option String := none
deriving DecidableEq

/-- A case record with the required fields (`input_id`, `input_type`,
`raw_text`) and optional `context`. -/
structure CaseInput where
  input_id : String
  input_type : String
  raw_text : String
  context : Option Context := none
deriving DecidableEq

/-- A marker mention found by the locator: definition, character span, matched
text from the original clause. -/
structure Mention where
  md : MarkerDef
  span : Nat × Nat
  matched : String
deriving DecidableEq

/-- Python `text[a:b]` on characters. -/
def sliceStr (s : String) (a b : Nat) : String :=
  ⟨(s.toList.drop a).take (b - a)⟩

/-- Stable insertion into a list sorted by the total preorder `le`: the new
element goes before the first element it compares `le` to, hence after all
earlier elements with an equal key (stability, as Python's sort guarantees). -/
def insertLE {α : Type} (le : α → α → Prop) [DecidableRel le] (x : α) : List α → List α
  | [] => [x]
  | y :: ys => if le x y then x :: y :: ys else y :: insertLE le x ys

/-- Stable sort by the total preorder `le` (models Python's stable `list.sort`). -/
def sortLE {α : Type} (le : α → α → Prop) [DecidableRel le] : List α → List α
  | [] => []
  | x :: xs => insertLE le x (sortLE le xs)

/-- The sort key of `_find_markers` (line 99): ascending start, then descending
length.  All spans compared satisfy `s ≤ e`, so `Nat` subtraction models the
Python integer length exactly. -/
def foundLE (x y : Mention) : Prop :=
  x.span.1 < y.span.1 ∨ (x.span.1 = y.span.1 ∧ y.span.2 - y.span.1 ≤ x.span.2 - x.span.1)

instance : DecidableRel foundLE := fun x y => by unfold foundLE; infer_instance

/-- The sort key of `split_clause_by_markers` (line 118): ascending start. -/
def startLE (x y : Mention) : Prop := x.span.1 ≤ y.span.1

instance : DecidableRel startLE := fun x y => by unfold startLE; infer_instance

/-- The greedy overlap-resolution loop of `_find_markers` (lines 100-108): a
candidate is dropped iff its span is fully contained in an already-used span. -/
def dedupGo : List Mention → List (Nat × Nat) → List Mention
  | [], _ => []
  | m :: rest, used =>
    if used.any (fun u => decide (u.1 ≤ m.span.1 ∧ m.span.2 ≤ u.2)) then
      dedupGo rest used
    else m :: dedupGo rest (used ++ [m.span])

/-- Lines 94-98 of `_find_markers`: all candidate matches, in alias-map order
then position order, with the matched text taken from the original clause. -/
def foundRaw (text : String) (amap : List (String × MarkerDef)) : List Mention :=
  amap.flatMap (fun p =>
    (findIter p.1.toList (lowerList text.toList)).map (fun sp =>
      ⟨p.2, sp, sliceStr text sp.1 sp.2⟩))

/-- `_find_markers` (lines 93-108). -/
def findMarkers (text : String) (amap : List (String × MarkerDef)) : List Mention :=
  dedupGo (sortLE foundLE (foundRaw text amap)) []

/-- The per-segment character bounds of `split_clause_by_markers` (lines
121-123): from each mention's start to the next mention's start, or to the
clause end for the last mention. -/
def segmentBounds (n : Nat) : List Mention → List (Nat × Nat)
  | [] => []
  | [m] => [(m.span.1, n)]
  | m :: m' :: rest => (m.span.1, m'.span.1) :: segmentBounds n (m' :: rest)

/-- The characters stripped from segment ends (line 124: `.strip(' ,;')`). -/
def isSegTrim (c : Char) : Bool := c = ' ' || c = ',' || c = ';'

/-- `split_clause_by_markers` (lines 113-127): segments are
`(marker_canonical, display_name, trimmed scoped text)`. -/
def splitClauseByMarkers (clause : String) (mentions : List Mention) :
    List (String × String × String) :=
  if mentions.isEmpty then [] else
  let ordered := sortLE startLE mentions
  let bounds := segmentBounds clause.length ordered
  (ordered.zip bounds).map (fun p =>
    (p.1.md.marker_canonical, p.1.md.display_name,
     (⟨dropEnds isSegTrim (sliceStr clause p.2.1 p.2.2).toList⟩ : String)))

/-- `RESULT_NOT_DONE_RE`: `\b(not\s+done|awaited|pending)\b`. -/
def NOT_DONE_ALTS : List (List Atom) :=
  [[Atom.lit "not".toList, Atom.ws, Atom.lit "done".toList],
   [Atom.lit "awaited".toList], [Atom.lit "pending".toList]]

/-- `RESULT_POS_RE`: `\b(positive|positivity)\b`. -/
def POS_ALTS : List (List Atom) :=
  [[Atom.lit "positive".toList], [Atom.lit "positivity".toList]]

/-- `RESULT_NEG_RE`: `\bnegative\b`. -/
def NEG_ALTS : List (List Atom) := [[Atom.lit "negative".toList]]

/-- `DIAGNOSTIC_RE` (line 10), with `supports?` and `favours?` expanded in
greedy order. -/
def DIAG_ALTS : List (List Atom) :=
  [[Atom.lit "supports".toList], [Atom.lit "support".toList],
   [Atom.lit "consistent with".toList], [Atom.lit "suggestive of".toList],
   [Atom.lit "favor".toList], [Atom.lit "favours".toList], [Atom.lit "favour".toList],
   [Atom.lit "primary".toList], [Atom.lit "metastasis".toList],
   [Atom.lit "metastatic".toList]]

/-- The controls gate regex (line 157): `\b(control|controls|internal control)\b`. -/
def CONTROLS_ALTS : List (List Atom) :=
  [[Atom.lit "control".toList], [Atom.lit "controls".toList],
   [Atom.lit "internal control".toList]]

/-- The adequate-controls regex (line 160): `\b(adequate|fine)\b`. -/
def ADEQ_ALTS : List (List Atom) :=
  [[Atom.lit "adequate".toList], [Atom.lit "fine".toList]]

/-- The hedge-word regex (line 164): `\b(maybe|kind of|around)\b`. -/
def HEDGE_ALTS : List (List Atom) :=
  [[Atom.lit "maybe".toList], [Atom.lit "kind of".toList], [Atom.lit "around".toList]]

/-- The clause-wide negation regex (line 201): `\bnegative\s+for\b`. -/
def NEGFOR_ALTS : List (List Atom) :=
  [[Atom.lit "negative".toList, Atom.ws, Atom.lit "for".toList]]

/-- Substring containment (Python `"inadequate" in lower`, line 158). -/
def hasSub (pat : List Char) : List Char → Bool
  | [] => (chopLit pat []).isSome
  | c :: rest => (chopLit pat (c :: rest)).isSome || hasSub pat rest

/-- `_extract_clause_data` (lines 129-176). -/
def extractClauseData (clause : String) : Extracted :=
  let lower := lowerList clause.toList
  { result :=
      if containsAlt NOT_DONE_ALTS lower then some "Not Done"
      else if containsAlt POS_ALTS lower then some "Positive"
      else if containsAlt NEG_ALTS lower then some "Negative"
      else none,
    pattern :=
      (firstWordAlt ["nuclear".toList, "cytoplasmic".toList, "membranous".toList] lower).map
        (fun w => (⟨w⟩ : String)),
    intensity :=
      (firstWordAlt ["weak".toList, "moderate".toList, "strong".toList] lower).map
        (fun w => (⟨w⟩ : String)),
    extent :=
      (firstWordAlt ["focal".toList, "diffuse".toList] lower).map (fun w => (⟨w⟩ : String)),
    percent_positive := (parsePercent ⟨lower⟩).1,
    percent_approximate := (parsePercent ⟨lower⟩).2,
    controls :=
      if containsAlt CONTROLS_ALTS lower then
        if hasSub "inadequate".toList lower then "inadequate"
        else if containsAlt ADEQ_ALTS lower then "adequate"
        else "not mentioned"
      else "not mentioned",
    confidence := if containsAlt HEDGE_ALTS lower then "uncertain" else "explicit" }

/-- One split step of `re.split(r"[.;]+", ·)`: split at every `.`/`;` (runs of
delimiters only produce empty pieces, which the caller strips and drops, so
this equals the `+`-collapsed split after filtering). -/
def splitOnDelims : List Char → List (List Char)
  | [] => [[]]
  | c :: cs =>
    if c = '.' || c = ';' then [] :: splitOnDelims cs
    else
      match splitOnDelims cs with
      | p :: ps => (c :: p) :: ps
      | [] => [[c]]

/-- `_split_clauses` (lines 179-182). -/
def splitClauses (text : String) : List String :=
  let replaced := text.toList.flatMap (fun c => if c = '\n' then ['.', ' '] else [c])
  ((splitOnDelims replaced).map (fun p => (⟨dropEnds isSpaceChar p⟩ : String))).filter
    (fun s => s ≠ "")

/-- Python truthiness of an optional string (`None` and `""` are falsy). -/
def truthyStr : Option String → Bool
  | none => false
  | some s => s != ""

/-- The issue of line 195. -/
def diagnosticIssue : Issue :=
  ⟨"DIAGNOSTIC_LANGUAGE_DETECTED", "Diagnostic language found in input.", "warning",
   none, none⟩

/-- The issue of line 230. -/
def resultInferredIssue (can : String) : Issue :=
  ⟨"RESULT_INFERRED", "Result inferred from attributes for " ++ can ++ ".", "warning",
   some can, some "result"⟩

/-- The issue of line 234. -/
def contradictoryIssue (can : String) : Issue :=
  ⟨"CONTRADICTORY_RESULT", "Conflicting results for " ++ can ++ ".", "error",
   some can, some "result"⟩

/-- The issue of line 247. -/
def lowConfidenceIssue (can : String) : Issue :=
  ⟨"LOW_CONFIDENCE", "Uncertain wording for " ++ can ++ ".", "warning", some can, none⟩

/-- The issue of line 251. -/
def percentApproxIssue (can : String) : Issue :=
  ⟨"PERCENT_APPROXIMATE", "Approximate/range percent for " ++ can ++ ".", "warning",
   some can, some "percent_positive"⟩

/-- The issue of line 261. -/
def unknownMarkerIssue (tok : String) : Issue :=
  ⟨"UNKNOWN_MARKER", "Unknown marker: " ++ tok, "error", none, some "marker_name"⟩

/-- The issue of line 264. -/
def noMarkersIssue : Issue :=
  ⟨"NO_MARKERS_FOUND", "No known markers found.", "error", none, none⟩

/-- The issue of line 272. -/
def resultMissingIssue (can : String) : Issue :=
  ⟨"RESULT_MISSING", "Missing result for " ++ can ++ ".", "error", some can, some "result"⟩

/-- The issue of line 275. -/
def contraPercentIssue (can : String) : Issue :=
  ⟨"CONTRADICTORY_RESULT_PERCENT", "Negative result with non-zero percent for " ++ can ++ ".",
   "error", some can, some "percent_positive"⟩

/-- The issue of line 279. -/
def invalidPatternIssue (can pat : String) : Issue :=
  ⟨"INVALID_PATTERN", "Invalid pattern for " ++ can ++ ": " ++ pat, "error",
   some can, some "pattern"⟩

/-- The issue of line 281. -/
def unusualPatternIssue (can pat : String) : Issue :=
  ⟨"UNUSUAL_PATTERN", "Unusual pattern for " ++ can ++ ": " ++ pat, "warning",
   some can, some "pattern"⟩

/-- The issue of line 285. -/
def percentReqWarnIssue (can : String) : Issue :=
  ⟨"PERCENT_REQUIRED_MISSING",
   "Exact percent required for " ++ can ++ "; approximate provided.", "warning",
   some can, some "percent_positive"⟩

/-- The issue of line 287. -/
def percentReqErrIssue (can : String) : Issue :=
  ⟨"PERCENT_REQUIRED_MISSING", "Percent required for " ++ can ++ ".", "error",
   some can, some "percent_positive"⟩

/-- The issue of line 290. -/
def intensityReqIssue (can : String) : Issue :=
  ⟨"INTENSITY_REQUIRED_MISSING", "Intensity required for " ++ can ++ ".", "error",
   some can, some "intensity"⟩

/-- The issue of line 293. -/
def percentRangeIssue (can : String) : Issue :=
  ⟨"PERCENT_OUT_OF_RANGE", "Percent out of range for " ++ can ++ ".", "error",
   some can, some "percent_positive"⟩

/-- The mutable accumulator of `process_case`: the insertion-ordered marker
dictionary and the two issue lists. -/
structure EngineAcc where
  markers : List (String × MarkerState)
  errors : List Issue
  warnings : List Issue
deriving DecidableEq

/-- Lines 206-209: fall back to the clause-level result, then to the
clause-wide "negative for" signal, when the segment's own result is null. -/
def resolveResult (clauseData : Extracted) (negFor : Bool) (d : Extracted) : Extracted :=
  let d1 :=
    if d.result = none ∧ (clauseData.result = some "Positive" ∨
        clauseData.result = some "Negative" ∨ clauseData.result = some "Not Done") then
      {d with result := clauseData.result}
    else d
  if negFor ∧ d1.result = none then {d1 with result := some "Negative"} else d1

/-- Line 218-226: some supporting attribute is present. -/
def hasSupportingAttrs (d : Extracted) : Bool :=
  d.intensity.isSome || d.pattern.isSome || d.percent_positive.isSome ||
    d.percent_approximate || d.extent.isSome

/-- Lines 216-230: the attribute-based positivity inference, returning the
(possibly inferred) result, the updated state and warnings. -/
def inferenceStep (can : String) (d : Extracted) (ms : MarkerState) (w : List Issue) :
    Option String × MarkerState × List Issue :=
  if d.result = none ∧ hasSupportingAttrs d = true then
    (some "Positive", {ms with confidence := "inferred"}, w ++ [resultInferredIssue can])
  else (d.result, ms, w)

/-- Lines 232-235: contradiction check and last-write-wins result overwrite. -/
def resultMerge (can : String) (prev : Option String) (inferred : Option String)
    (ms : MarkerState) (es : List Issue) : MarkerState × List Issue :=
  match inferred with
  | none => (ms, es)
  | some r =>
    ({ms with result := some r},
     if truthyStr prev = true ∧ prev ≠ some r then es ++ [contradictoryIssue can] else es)

/-- Lines 237-240: any non-null new value overwrites the stored field. -/
def fieldsMerge (d : Extracted) (ms : MarkerState) : MarkerState :=
  let ms1 := match d.pattern with | some v => {ms with pattern := some v} | none => ms
  let ms2 := match d.intensity with | some v => {ms1 with intensity := some v} | none => ms1
  let ms3 := match d.extent with | some v => {ms2 with extent := some v} | none => ms2
  match d.percent_positive with
  | some v => {ms3 with percent_positive := some v}
  | none => ms3

/-- Lines 237-253, state part: field overwrites, controls, the hedge-confidence
rule, the sticky approximate flag, and the evidence record (the warning
appends of the same lines are `mergeRestWarnings`; the two are independent). -/
def mergeRestState (d : Extracted) (txt : String) (ms : MarkerState) : MarkerState :=
  let ms3 := fieldsMerge d ms
  let ms4 := if d.controls ≠ "not mentioned" then {ms3 with controls := d.controls} else ms3
  let ms5 := if d.confidence ≠ "explicit" then {ms4 with confidence := "uncertain"} else ms4
  let ms6 :=
    if d.percent_approximate = true then {ms5 with percent_approximate := true} else ms5
  {ms6 with evidence := ms6.evidence ++ [⟨txt, none, none⟩]}

/-- Lines 245-251, warning part: `LOW_CONFIDENCE` then `PERCENT_APPROXIMATE`,
appended under the same conditions and in the same order as the source. -/
def mergeRestWarnings (d : Extracted) (can : String) (w : List Issue) : List Issue :=
  (if d.confidence ≠ "explicit" then w ++ [lowConfidenceIssue can] else w) ++
    (if d.percent_approximate = true then [percentApproxIssue can] else [])

/-- Lines 204-253: merge one marker segment `(canonical, display name, text)`
into the running accumulator. -/
def processSegment (clauseData : Extracted) (negFor : Bool) (acc : EngineAcc)
    (seg : String × String × String) : EngineAcc :=
  let can := seg.1
  let name := seg.2.1
  let txt := seg.2.2
  let d := resolveResult clauseData negFor (extractClauseData txt)
  let ms0 := (lookupD acc.markers can).getD
    { marker_name := name, marker_canonical := can }
  let step := inferenceStep can d ms0 acc.warnings
  let rm := resultMerge can ms0.result step.1 step.2.1 acc.errors
  { markers := dictInsert can (mergeRestState d txt rm.1) acc.markers,
    errors := rm.2,
    warnings := mergeRestWarnings d can step.2.2 }

/-- Lines 255-261: the unknown-marker scan of a markerless clause (run on the
original, non-lowered clause; tokens of at most two characters are dropped). -/
def unknownIssues (clause : String) : List Issue :=
  (unknownIter clause.toList).filterMap (fun tok =>
    if tok.length ≤ 2 then none else some (unknownMarkerIssue ⟨tok⟩))

/-- Lines 197-261: process one clause. -/
def processClause (amap : List (String × MarkerDef)) (acc : EngineAcc) (clause : String) :
    EngineAcc :=
  let found := findMarkers clause amap
  let segs := splitClauseByMarkers clause found
  let negFor := containsAlt NEGFOR_ALTS (lowerList clause.toList)
  let clauseData := extractClauseData clause
  let acc1 := segs.foldl (processSegment clauseData negFor) acc
  if found.isEmpty then {acc1 with errors := acc1.errors ++ unknownIssues clause} else acc1

/-- Lines 271-272: the missing-result rule. -/
def missingResultIssues (can : String) (ms : MarkerState) : List Issue :=
  if ms.result = none then [resultMissingIssue can] else []

/-- Lines 274-275: the negative-result-with-positive-percent rule. -/
def negPctIssues (can : String) (ms : MarkerState) : List Issue :=
  if ms.result = some "Negative" ∧ ms.percent_positive.any (fun p => decide (0 < p)) = true
  then [contraPercentIssue can] else []

/-- Lines 277-281: the pattern rule, splitting into (errors, warnings). -/
def patIssues (md : MarkerDef) (can : String) (ms : MarkerState) :
    List Issue × List Issue :=
  match ms.pattern with
  | some pat =>
    if pat ∈ md.allowed_patterns then ([], [])
    else if md.hard_pattern_enforce then ([invalidPatternIssue can pat], [])
    else ([], [unusualPatternIssue can pat])
  | none => ([], [])

/-- Lines 283-287: the required-percent rule, splitting into
(errors, warnings). -/
def prIssues (md : MarkerDef) (can : String) (ms : MarkerState) :
    List Issue × List Issue :=
  if reqGet md.requirements "percent_required" = true ∧ ms.result ≠ some "Not Done" ∧
      ms.percent_positive = none then
    if ms.percent_approximate then ([], [percentReqWarnIssue can])
    else ([percentReqErrIssue can], [])
  else ([], [])

/-- Lines 289-290: the required-intensity rule. -/
def intReqIssues (md : MarkerDef) (can : String) (ms : MarkerState) : List Issue :=
  if reqGet md.requirements "intensity_required" = true ∧ ms.result ≠ some "Not Done" ∧
      ms.intensity = none then [intensityReqIssue can] else []

/-- Lines 292-293: the percent-range rule. -/
def rangeIssues (can : String) (ms : MarkerState) : List Issue :=
  match ms.percent_positive with
  | some p => if 100 < p then [percentRangeIssue can] else []
  | none => []

/-- Lines 268-293: the validation rules for one marker, returning the issues
appended to the error and warning lists, in the source's append order. -/
def validateMarker (md : MarkerDef) (can : String) (ms : MarkerState) :
    List Issue × List Issue :=
  (missingResultIssues can ms ++ negPctIssues can ms ++ (patIssues md can ms).1 ++
     (prIssues md can ms).1 ++ intReqIssues md can ms ++ rangeIssues can ms,
   (patIssues md can ms).2 ++ (prIssues md can ms).2)

/-- Lines 266-293: run the validation over all markers in first-seen order;
the dictionary lookup of line 268 can raise `KeyError` in Python, modelled by
`Except.error`. -/
def validateAll (defsByCan : List (String × MarkerDef)) :
    List (String × MarkerState) → List Issue → List Issue →
    Except String (List Issue × List Issue)
  | [], es, ws => .ok (es, ws)
  | (can, ms) :: rest, es, ws =>
    match lookupD defsByCan can with
    | none => .error ("KeyError: " ++ can)
    | some md =>
      let vr := validateMarker md can ms
      validateAll defsByCan rest (es ++ vr.1) (ws ++ vr.2)

/-- One table row (lines 299-307). -/
structure Row where
  marker : String
  result : String
  pattern : Option String
  intensity : Option String
  percent_positive : Option Nat
  extent : Option String
  comment : Option String
deriving DecidableEq

/-- A marker state as emitted in the `ihc.markers` output (line 336: all fields
except `percent_approximate`). -/
structure MarkerOut where
  marker_name : String
  marker_canonical : String
  result : Option String
  pattern : Option String
  intensity : Option String
  percent_positive : Option Nat
  extent : Option String
  controls : String
  comment : Option String
  confidence : String
  evidence : List Evidence
deriving DecidableEq

/-- Drop the `percent_approximate` flag (line 336). -/
def toOut (ms : MarkerState) : MarkerOut :=
  ⟨ms.marker_name, ms.marker_canonical, ms.result, ms.pattern, ms.intensity,
   ms.percent_positive, ms.extent, ms.controls, ms.comment, ms.confidence, ms.evidence⟩

/-- One table row of a marker state (lines 299-307; `ms.result or ""`). -/
def rowOf (ms : MarkerState) : Row :=
  ⟨ms.marker_name, ms.result.getD "", ms.pattern, ms.intensity, ms.percent_positive,
   ms.extent, ms.comment⟩

/-- Python `sep.join(pieces)`. -/
def joinSep (sep : String) : List String → String
  | [] => ""
  | [x] => x
  | x :: xs => x ++ sep ++ joinSep sep xs

/-- One narrative line of a marker state (lines 308-316), when the result is
truthy. -/
def lineOf (ms : MarkerState) : Option String :=
  if truthyStr ms.result then
    let pieces := [ms.result.getD ""] ++
      (if truthyStr ms.pattern then [ms.pattern.getD ""] else []) ++
      (if truthyStr ms.intensity then [ms.intensity.getD ""] else []) ++
      (match ms.percent_positive with
       | some p => ["in " ++ toString p ++ "% of cells"]
       | none => [])
    some (ms.marker_name ++ ": " ++ joinSep ", " pieces ++ ".")
  else none

/-- Lines 322-326: the overall case status. -/
def computeStatus (es ws : List Issue) : String :=
  if es.isEmpty then (if ws.isEmpty then "ok" else "needs_review") else "failed"

/-- The case output record (lines 328-341), flattened: `panel_name`, `case_id`,
`specimen_id` and `markers` form the `ihc` part, `narrative` and `table` the
`rendered` part, `errors` and `warnings` the `validation` part. -/
structure CaseOutput where
  output_id : String
  input_id : String
  status : String
  panel_name : Option String
  case_id : Option String
  specimen_id : Option String
  markers : List MarkerOut
  narrative : Option String
  table : List Row
  errors : List Issue
  warnings : List Issue
  source_type : String
  extraction_model : String
  version : String
deriving DecidableEq

/-- `_load_dict`'s alias map (lines 63-66), built from the already-parsed
definitions (the JSON file loader is out of scope per the spec). -/
def buildAmap (defs : List MarkerDef) : List (String × MarkerDef) :=
  defs.foldl (fun m d => d.aliases.foldl (fun m' a => dictInsert (normAlias a) d m') m) []

/-- `defs_by_can` (line 266). -/
def buildDefsByCan (defs : List MarkerDef) : List (String × MarkerDef) :=
  defs.foldl (fun m d => dictInsert d.marker_canonical d m) []

/-- The stripped raw text of a case (line 187). -/
def stripRaw (case : CaseInput) : String :=
  ⟨dropEnds isSpaceChar case.raw_text.toList⟩

/-- `DIAGNOSTIC_RE.search(raw)` as a Boolean (line 194; `re.I` modelled by
lowering). -/
def diagB (case : CaseInput) : Bool :=
  containsAlt DIAG_ALTS (lowerList (stripRaw case).toList)

/-- Lines 188-261: the accumulator after the diagnostic-language check and the
clause loop. -/
def caseAcc (case : CaseInput) (defs : List MarkerDef) : EngineAcc :=
  let w0 : List Issue := if diagB case then [diagnosticIssue] else []
  (splitClauses (stripRaw case)).foldl (processClause (buildAmap defs)) ⟨[], [], w0⟩

/-- Lines 263-264: the error list after the no-markers check. -/
def caseErrors0 (case : CaseInput) (defs : List MarkerDef) : List Issue :=
  let acc := caseAcc case defs
  if acc.markers.isEmpty then acc.errors ++ [noMarkersIssue] else acc.errors

/-- Lines 266-293: the final error and warning lists after validation. -/
def caseValidated (case : CaseInput) (defs : List MarkerDef) :
    Except String (List Issue × List Issue) :=
  validateAll (buildDefsByCan defs) (caseAcc case defs).markers (caseErrors0 case defs)
    (caseAcc case defs).warnings

/-- Lines 295-341: assemble the output record from the final accumulator and
issue lists. -/
def assembleOut (u : String) (case : CaseInput) (acc : EngineAcc)
    (errors warnings : List Issue) : CaseOutput :=
  let ctx := case.context
  let specimenOpt := ctx.bind (·.specimen_id)
  let specimen := if truthyStr specimenOpt then specimenOpt.getD "" else "Specimen A"
  { output_id := u,
    input_id := case.input_id,
    status := computeStatus errors warnings,
    panel_name := ctx.bind (·.panel_hint),
    case_id := ctx.bind (·.case_id),
    specimen_id := specimenOpt,
    markers := acc.markers.map (fun p => toOut p.2),
    narrative :=
      if acc.markers.isEmpty then none
      else some ("Immunohistochemistry (" ++ specimen ++ "):\n" ++
        joinSep "\n" (acc.markers.filterMap (fun p => lineOf p.2))),
    table := acc.markers.map (fun p => rowOf p.2),
    errors := errors,
    warnings := warnings,
    source_type := case.input_type,
    extraction_model := "rules-v1",
    version := "ihc-mvp-1" }

/-- `process_case` (lines 185-341).  The generated uuid is the parameter `u`;
the dictionary is the parsed definition list.  The only Python statement that
can raise on a well-formed case record is the `defs_by_can[can]` lookup of
line 268, modelled by the `Except` of `validateAll`. -/
def processCaseE (u : String) (case : CaseInput) (defs : List MarkerDef) :
    Except String CaseOutput :=
  match caseValidated case defs with
  | .error e => .error e
  | .ok (errors, warnings) =>
    .ok (assembleOut u case (caseAcc case defs) errors warnings)

/-! ### Views and fixtures used by the claim theorems -/

/-- The `ihc` part of the output (line 332). -/
def ihcView (o : CaseOutput) :
    Option String × Option String × Option String × List MarkerOut :=
  (o.panel_name, o.case_id, o.specimen_id, o.markers)

/-- The `rendered` part of the output (line 338). -/
def renderedView (o : CaseOutput) : Option String × List Row :=
  (o.narrative, o.table)

/-- The `validation` part of the output (line 339). -/
def validationView (o : CaseOutput) : List Issue × List Issue :=
  (o.errors, o.warnings)

/-- Is an issue a `PERCENT_REQUIRED_MISSING` issue? -/
def isPRM (i : Issue) : Bool := i.code == "PERCENT_REQUIRED_MISSING"

/-- Is an issue a `DIAGNOSTIC_LANGUAGE_DETECTED` issue? -/
def isDiag (i : Issue) : Bool := i.code == "DIAGNOSTIC_LANGUAGE_DETECTED"

/-- Fixture: the output of the empty case against the empty dictionary. -/
def wOutC1 : CaseOutput :=
  { output_id := "u", input_id := "c", status := "failed", panel_name := none,
    case_id := none, specimen_id := none, markers := [], narrative := none, table := [],
    errors := [noMarkersIssue], warnings := [], source_type := "t",
    extraction_model := "rules-v1", version := "ihc-mvp-1" }

/-- Fixture: a marker state with a stored `Negative` result. -/
def exMsC2 : MarkerState :=
  { marker_name := "TTF1", marker_canonical := "TTF1", result := some "Negative" }

/-- Fixture: an accumulator already holding `exMsC2`. -/
def exAccC2 : EngineAcc := ⟨[("TTF1", exMsC2)], [], []⟩

/-- What the locator's greedy dedup actually guarantees for two accepted
mentions in output order: the later one starts strictly later and neither span
is fully contained in the other. -/
def MentionSep (a b : Mention) : Prop :=
  a.span.1 < b.span.1 ∧
    ¬(b.span.1 ≤ a.span.1 ∧ a.span.2 ≤ b.span.2) ∧
    ¬(a.span.1 ≤ b.span.1 ∧ b.span.2 ≤ a.span.2)

/-- Pairwise non-overlap of half-open character spans, as a Boolean. -/
def spansDisjointB : List (Nat × Nat) → Bool
  | [] => true
  | a :: rest =>
    rest.all (fun b => decide (a.2 ≤ b.1 ∨ b.2 ≤ a.1)) && spansDisjointB rest

/-- Fixture: the output of the case `"primary"` against the empty dictionary. -/
def wOutC10 : CaseOutput :=
  { output_id := "u", input_id := "c", status := "failed", panel_name := none,
    case_id := none, specimen_id := none, markers := [], narrative := none, table := [],
    errors := [noMarkersIssue], warnings := [diagnosticIssue], source_type := "t",
    extraction_model := "rules-v1", version := "ihc-mvp-1" }

/-- Fixture: a definition whose alias is `"estrogen receptor"`. -/
def erDef : MarkerDef := ⟨"ER", "ER", ["estrogen receptor"], false, [], []⟩

/-- Fixture: a definition whose alias is `"receptor alpha"`. -/
def eraDef : MarkerDef := ⟨"ERA", "ERA", ["receptor alpha"], false, [], []⟩

/-- Fixture: TTF1 definition for the scoping witness. -/
def dTTF1 : MarkerDef := ⟨"TTF1", "TTF1", ["TTF1"], true, ["nuclear"], []⟩

/-- Fixture: CK7 definition for the scoping witness. -/
def dCK7 : MarkerDef := ⟨"CK7", "CK7", ["CK7"], false, ["cytoplasmic"], []⟩

/-! ### Helper lemmas -/

theorem computeStatus_spec (es ws : List Issue) :
    (computeStatus es ws = "failed" ↔ es ≠ []) ∧
    (computeStatus es ws = "needs_review" ↔ (es = [] ∧ ws ≠ [])) ∧
    (computeStatus es ws = "ok" ↔ (es = [] ∧ ws = [])) := by
  unfold computeStatus
  rcases es with _ | ⟨e, es⟩ <;> rcases ws with _ | ⟨w, ws⟩ <;> simp

theorem processCaseE_ok_out (u : String) (case : CaseInput) (defs : List MarkerDef)
    (out : CaseOutput) (h : processCaseE u case defs = Except.ok out) :
    ∃ es ws, caseValidated case defs = Except.ok (es, ws) ∧
      out = assembleOut u case (caseAcc case defs) es ws := by
  unfold processCaseE at h
  rcases hv : caseValidated case defs with e | ⟨es, ws⟩ <;> rw [hv] at h
  · exact absurd h (by simp)
  · exact ⟨es, ws, rfl, by simpa using h.symm⟩

/-! ### Claim theorems -/

/-- **C4** (code bug evaluation): for the text span `"positive in 50% of cells"`,
which contains the literal percent `50%`, `_parse_percent` returns
`(null, approximate=false)` instead of the exact value 50 claimed by the spec:
the regex `\b(\d{1,3})\s*%\b` can only match when a word character immediately
follows `%`, because `%` itself is a non-word character, so a percent sign
followed by a space or end of text never parses. -/
theorem claim_C4 :
    parsePercent "positive in 50% of cells" = (none, false) ∧
    parsePercent "50%" = (none, false) ∧
    parsePercent "50 percent" = (some 50, false) := by
  refine ⟨?_, ?_, ?_⟩ <;> rfl

/-- **C1**: for every processed case, the output status is `"failed"` iff the
errors sequence is non-empty, `"needs_review"` iff errors is empty and warnings
is non-empty, and `"ok"` iff both are empty. -/
theorem claim_C1 (u : String) (case : CaseInput) (defs : List MarkerDef)
    (out : CaseOutput) (h : processCaseE u case defs = Except.ok out) :
    (out.status = "failed" ↔ out.errors ≠ []) ∧
    (out.status = "needs_review" ↔ (out.errors = [] ∧ out.warnings ≠ [])) ∧
    (out.status = "ok" ↔ (out.errors = [] ∧ out.warnings = [])) := by
  obtain ⟨es, ws, _, hout⟩ := processCaseE_ok_out u case defs out h
  subst hout
  simpa [assembleOut] using computeStatus_spec es ws

/-- Witness for C1: the empty case against the empty dictionary. -/
theorem claim_C1_witness :
    processCaseE "u" ⟨"c", "t", "", none⟩ [] = Except.ok wOutC1 ∧
    ((wOutC1.status = "failed" ↔ wOutC1.errors ≠ []) ∧
     (wOutC1.status = "needs_review" ↔ (wOutC1.errors = [] ∧ wOutC1.warnings ≠ [])) ∧
     (wOutC1.status = "ok" ↔ (wOutC1.errors = [] ∧ wOutC1.warnings = []))) :=
  ⟨rfl, claim_C1 "u" ⟨"c", "t", "", none⟩ [] wOutC1 rfl⟩

/-- **C9**: the uuid parameter is the only source of run-to-run variation: for
any two uuids, the `ihc`, `rendered` and `validation` parts of the output of
`process_case` on an identical case record and dictionary are identical. -/
theorem claim_C9 (u1 u2 : String) (case : CaseInput) (defs : List MarkerDef) :
    (processCaseE u1 case defs).map ihcView = (processCaseE u2 case defs).map ihcView ∧
    (processCaseE u1 case defs).map renderedView =
      (processCaseE u2 case defs).map renderedView ∧
    (processCaseE u1 case defs).map validationView =
      (processCaseE u2 case defs).map validationView := by
  rcases hv : caseValidated case defs with e | ⟨es, ws⟩ <;>
    simp [processCaseE, hv, Except.map, assembleOut, ihcView, renderedView, validationView]

@[simp] theorem isPRM_resultMissing (can : String) :
    isPRM (resultMissingIssue can) = false := rfl

@[simp] theorem isPRM_contraPercent (can : String) :
    isPRM (contraPercentIssue can) = false := rfl

@[simp] theorem isPRM_invalidPattern (can pat : String) :
    isPRM (invalidPatternIssue can pat) = false := rfl

@[simp] theorem isPRM_unusualPattern (can pat : String) :
    isPRM (unusualPatternIssue can pat) = false := rfl

@[simp] theorem isPRM_intensityReq (can : String) :
    isPRM (intensityReqIssue can) = false := rfl

@[simp] theorem isPRM_percentRange (can : String) :
    isPRM (percentRangeIssue can) = false := rfl

@[simp] theorem isPRM_percentReqWarn (can : String) :
    isPRM (percentReqWarnIssue can) = true := rfl

@[simp] theorem isPRM_percentReqErr (can : String) :
    isPRM (percentReqErrIssue can) = true := rfl

/-- **C7**: a `PERCENT_REQUIRED_MISSING` issue is emitted exactly when the
marker's definition requires a percent, the final result is not `"Not Done"`
and the percent value is null; it is the single warning with that code when the
sticky approximate flag is set and the single error with that code otherwise,
and no issue with that code is emitted in any other situation. -/
theorem countP_isPRM_missingResult (can : String) (ms : MarkerState) :
    (missingResultIssues can ms).countP isPRM = 0 := by
  unfold missingResultIssues; split <;> simp

theorem countP_isPRM_negPct (can : String) (ms : MarkerState) :
    (negPctIssues can ms).countP isPRM = 0 := by
  unfold negPctIssues; split <;> simp

theorem countP_isPRM_pat (md : MarkerDef) (can : String) (ms : MarkerState) :
    (patIssues md can ms).1.countP isPRM = 0 ∧ (patIssues md can ms).2.countP isPRM = 0 := by
  unfold patIssues
  rcases ms.pattern with _ | pat
  · simp
  · by_cases h1 : pat ∈ md.allowed_patterns <;>
      by_cases h2 : md.hard_pattern_enforce = true <;> simp [h1, h2]

theorem countP_isPRM_intReq (md : MarkerDef) (can : String) (ms : MarkerState) :
    (intReqIssues md can ms).countP isPRM = 0 := by
  unfold intReqIssues; split <;> simp

theorem countP_isPRM_range (can : String) (ms : MarkerState) :
    (rangeIssues can ms).countP isPRM = 0 := by
  unfold rangeIssues
  rcases ms.percent_positive with _ | p
  · simp
  · split <;> simp

theorem countP_isPRM_pr (md : MarkerDef) (can : String) (ms : MarkerState) :
    ((prIssues md can ms).1.countP isPRM =
      if reqGet md.requirements "percent_required" = true ∧ ms.result ≠ some "Not Done" ∧
          ms.percent_positive = none ∧ ms.percent_approximate = false then 1 else 0) ∧
    ((prIssues md can ms).2.countP isPRM =
      if reqGet md.requirements "percent_required" = true ∧ ms.result ≠ some "Not Done" ∧
          ms.percent_positive = none ∧ ms.percent_approximate = true then 1 else 0) := by
  unfold prIssues
  rcases happ : ms.percent_approximate <;> split_ifs <;> simp_all

/-- **C7**: a `PERCENT_REQUIRED_MISSING` issue is emitted exactly when the
marker's definition requires a percent, the final result is not `"Not Done"`
and the percent value is null; it is the single warning with that code when the
sticky approximate flag is set and the single error with that code otherwise,
and no issue with that code is emitted in any other situation. -/
theorem claim_C7 (md : MarkerDef) (can : String) (ms : MarkerState) :
    ((validateMarker md can ms).1.countP isPRM =
      if reqGet md.requirements "percent_required" = true ∧ ms.result ≠ some "Not Done" ∧
          ms.percent_positive = none ∧ ms.percent_approximate = false then 1 else 0) ∧
    ((validateMarker md can ms).2.countP isPRM =
      if reqGet md.requirements "percent_required" = true ∧ ms.result ≠ some "Not Done" ∧
          ms.percent_positive = none ∧ ms.percent_approximate = true then 1 else 0) := by
  unfold validateMarker
  simp only [List.countP_append, countP_isPRM_missingResult, countP_isPRM_negPct,
    (countP_isPRM_pat md can ms).1, (countP_isPRM_pat md can ms).2,
    countP_isPRM_intReq, countP_isPRM_range,
    (countP_isPRM_pr md can ms).1, (countP_isPRM_pr md can ms).2]
  simp

theorem lookupD_dictInsert_self {β : Type} (k : String) (v : β) (m : List (String × β)) :
    lookupD (dictInsert k v m) k = some v := by
  induction m with
  | nil => simp [dictInsert, lookupD]
  | cons p rest ih =>
    obtain ⟨k', v'⟩ := p
    by_cases h : k' = k
    · subst h; simp [dictInsert, lookupD]
    · simpa [dictInsert, lookupD, h] using ih

theorem fieldsMerge_result (d : Extracted) (m : MarkerState) :
    (fieldsMerge d m).result = m.result := by
  unfold fieldsMerge
  rcases d.pattern <;> rcases d.intensity <;> rcases d.extent <;>
    rcases d.percent_positive <;> rfl

theorem mergeRestState_result (d : Extracted) (txt : String) (ms : MarkerState) :
    (mergeRestState d txt ms).result = ms.result := by
  unfold mergeRestState
  split_ifs <;> simp [fieldsMerge_result]

theorem mergeRestWarnings_spec (d : Extracted) (can : String) (w : List Issue) :
    ∃ t, mergeRestWarnings d can w = w ++ t ∧
      ∀ i ∈ t, i.code = "LOW_CONFIDENCE" ∨ i.code = "PERCENT_APPROXIMATE" := by
  unfold mergeRestWarnings
  split_ifs
  · exact ⟨[lowConfidenceIssue can, percentApproxIssue can], by simp, by
      intro i hi
      rcases hi with _ | ⟨_, _ | ⟨_, h⟩⟩
      · exact Or.inl rfl
      · exact Or.inr rfl
      · cases h⟩
  · exact ⟨[lowConfidenceIssue can], by simp, by
      intro i hi
      rcases hi with _ | ⟨_, h⟩
      · exact Or.inl rfl
      · cases h⟩
  · exact ⟨[percentApproxIssue can], by simp, by
      intro i hi
      rcases hi with _ | ⟨_, h⟩
      · exact Or.inr rfl
      · cases h⟩
  · exact ⟨[], by simp, by intro i hi; cases hi⟩

/-- **C2**: during merging, when the newly computed result for a segment is
non-null while the marker's stored result is non-null (and truthy) and
different, the `CONTRADICTORY_RESULT` error is appended to the error list and
the new result still overwrites the stored one (last-write-wins; the error does
not block the overwrite). -/
theorem claim_C2 (clauseData : Extracted) (negFor : Bool) (acc : EngineAcc)
    (can name txt : String) (ms : MarkerState) (r r' : String)
    (hms : lookupD acc.markers can = some ms)
    (hprev : ms.result = some r) (hr : r ≠ "")
    (hnew : (inferenceStep can (resolveResult clauseData negFor (extractClauseData txt)) ms
      acc.warnings).1 = some r')
    (hne : r ≠ r') :
    (processSegment clauseData negFor acc (can, name, txt)).errors =
      acc.errors ++ [contradictoryIssue can] ∧
    (lookupD (processSegment clauseData negFor acc (can, name, txt)).markers can).map
      (fun s => s.result) = some (some r') := by
  have hms0 : (lookupD acc.markers can).getD
      { marker_name := name, marker_canonical := can } = ms := by rw [hms]; rfl
  constructor
  · simp only [processSegment, hms0, hprev, hnew]
    simp [resultMerge, truthyStr, hr, hne]
  · simp only [processSegment, hms0, hprev, hnew, lookupD_dictInsert_self]
    simp [mergeRestState_result, resultMerge]

/-- Witness for C2: merging the segment `"ttf1 positive"` into a stored
`Negative` result appends the contradiction error and overwrites the result. -/
theorem claim_C2_witness :
    lookupD exAccC2.markers "TTF1" = some exMsC2 ∧
    ((processSegment (extractClauseData "") false exAccC2
        ("TTF1", "TTF1", "ttf1 positive")).errors =
      exAccC2.errors ++ [contradictoryIssue "TTF1"] ∧
     (lookupD (processSegment (extractClauseData "") false exAccC2
        ("TTF1", "TTF1", "ttf1 positive")).markers "TTF1").map (fun s => s.result) =
      some (some "Positive")) :=
  ⟨rfl, claim_C2 (extractClauseData "") false exAccC2 "TTF1" "TTF1" "ttf1 positive"
    exMsC2 "Negative" "Positive" rfl rfl (by decide) rfl (by decide)⟩

/-- **C6**: for a segment whose result is still null after the clause-level and
"negative for" fallbacks but which has some supporting attribute, the inference
step yields result `Positive`, sets the marker state's confidence to
`"inferred"` and appends the `RESULT_INFERRED` warning scoped to the marker;
after the whole merge the stored result is `Positive` and the warning is in the
output warning list. -/
theorem claim_C6 (clauseData : Extracted) (negFor : Bool) (acc : EngineAcc)
    (can name txt : String)
    (hres : (resolveResult clauseData negFor (extractClauseData txt)).result = none)
    (hattr : hasSupportingAttrs (resolveResult clauseData negFor (extractClauseData txt)) =
      true) :
    (inferenceStep can (resolveResult clauseData negFor (extractClauseData txt))
      ((lookupD acc.markers can).getD { marker_name := name, marker_canonical := can })
      acc.warnings).1 = some "Positive" ∧
    (inferenceStep can (resolveResult clauseData negFor (extractClauseData txt))
      ((lookupD acc.markers can).getD { marker_name := name, marker_canonical := can })
      acc.warnings).2.1.confidence = "inferred" ∧
    (inferenceStep can (resolveResult clauseData negFor (extractClauseData txt))
      ((lookupD acc.markers can).getD { marker_name := name, marker_canonical := can })
      acc.warnings).2.2 = acc.warnings ++ [resultInferredIssue can] ∧
    (lookupD (processSegment clauseData negFor acc (can, name, txt)).markers can).map
      (fun s => s.result) = some (some "Positive") ∧
    resultInferredIssue can ∈ (processSegment clauseData negFor acc (can, name, txt)).warnings := by
  have hstep : inferenceStep can (resolveResult clauseData negFor (extractClauseData txt))
      ((lookupD acc.markers can).getD { marker_name := name, marker_canonical := can })
      acc.warnings =
      (some "Positive",
       {(lookupD acc.markers can).getD { marker_name := name, marker_canonical := can } with
          confidence := "inferred"},
       acc.warnings ++ [resultInferredIssue can]) := by
    unfold inferenceStep
    rw [if_pos ⟨hres, hattr⟩]
  refine ⟨by rw [hstep], by rw [hstep], by rw [hstep], ?_, ?_⟩
  · simp only [processSegment, hstep, lookupD_dictInsert_self]
    simp [mergeRestState_result, resultMerge]
  · simp only [processSegment, hstep]
    obtain ⟨t, ht, -⟩ := mergeRestWarnings_spec
      (resolveResult clauseData negFor (extractClauseData txt)) can
      (acc.warnings ++ [resultInferredIssue can])
    rw [ht]
    simp

/-- Witness for C6: the segment `"ttf1 strong"` (intensity but no polarity
word) triggers the inference. -/
theorem claim_C6_witness :
    (resolveResult (extractClauseData "") false (extractClauseData "ttf1 strong")).result =
      none ∧
    ((inferenceStep "TTF1" (resolveResult (extractClauseData "") false
        (extractClauseData "ttf1 strong"))
        ((lookupD (⟨[], [], []⟩ : EngineAcc).markers "TTF1").getD
          { marker_name := "TTF1", marker_canonical := "TTF1" })
        (⟨[], [], []⟩ : EngineAcc).warnings).1 = some "Positive" ∧
     (inferenceStep "TTF1" (resolveResult (extractClauseData "") false
        (extractClauseData "ttf1 strong"))
        ((lookupD (⟨[], [], []⟩ : EngineAcc).markers "TTF1").getD
          { marker_name := "TTF1", marker_canonical := "TTF1" })
        (⟨[], [], []⟩ : EngineAcc).warnings).2.1.confidence = "inferred" ∧
     (inferenceStep "TTF1" (resolveResult (extractClauseData "") false
        (extractClauseData "ttf1 strong"))
        ((lookupD (⟨[], [], []⟩ : EngineAcc).markers "TTF1").getD
          { marker_name := "TTF1", marker_canonical := "TTF1" })
        (⟨[], [], []⟩ : EngineAcc).warnings).2.2 =
      (⟨[], [], []⟩ : EngineAcc).warnings ++ [resultInferredIssue "TTF1"] ∧
     (lookupD (processSegment (extractClauseData "") false (⟨[], [], []⟩ : EngineAcc)
        ("TTF1", "TTF1", "ttf1 strong")).markers "TTF1").map (fun s => s.result) =
      some (some "Positive") ∧
     resultInferredIssue "TTF1" ∈ (processSegment (extractClauseData "") false
        (⟨[], [], []⟩ : EngineAcc) ("TTF1", "TTF1", "ttf1 strong")).warnings) :=
  ⟨rfl, claim_C6 (extractClauseData "") false ⟨[], [], []⟩ "TTF1" "TTF1" "ttf1 strong"
    rfl rfl⟩

theorem foundLE_total (x y : Mention) : foundLE x y ∨ foundLE y x := by
  unfold foundLE; omega

theorem foundLE_trans (x y z : Mention) (h1 : foundLE x y) (h2 : foundLE y z) :
    foundLE x z := by
  unfold foundLE at *; omega

theorem mem_insertLE {α : Type} (le : α → α → Prop) [DecidableRel le] (x a : α)
    (l : List α) : a ∈ insertLE le x l ↔ a = x ∨ a ∈ l := by
  induction l with
  | nil => simp [insertLE]
  | cons y ys ih =>
    unfold insertLE
    split
    · simp [List.mem_cons]
    · simp only [List.mem_cons, ih]
      tauto

theorem insertLE_pairwise {α : Type} (le : α → α → Prop) [DecidableRel le]
    (htot : ∀ a b, le a b ∨ le b a) (htrans : ∀ a b c, le a b → le b c → le a c)
    (x : α) (l : List α) (h : l.Pairwise le) : (insertLE le x l).Pairwise le := by
  induction l with
  | nil => simp [insertLE]
  | cons y ys ih =>
    obtain ⟨hy, hys⟩ := List.pairwise_cons.mp h
    unfold insertLE
    split
    · rename_i hxy
      refine List.pairwise_cons.mpr ⟨?_, h⟩
      intro z hz
      rcases List.mem_cons.mp hz with rfl | hz'
      · exact hxy
      · exact htrans x y z hxy (hy z hz')
    · rename_i hxy
      have hyx : le y x := (htot x y).resolve_left hxy
      refine List.pairwise_cons.mpr ⟨?_, ih hys⟩
      intro z hz
      rcases (mem_insertLE le x z ys).mp hz with rfl | hz'
      · exact hyx
      · exact hy z hz'

theorem sortLE_pairwise {α : Type} (le : α → α → Prop) [DecidableRel le]
    (htot : ∀ a b, le a b ∨ le b a) (htrans : ∀ a b c, le a b → le b c → le a c)
    (l : List α) : (sortLE le l).Pairwise le := by
  induction l with
  | nil => simp [sortLE]
  | cons x xs ih => exact insertLE_pairwise le htot htrans x _ ih

theorem mem_sortLE {α : Type} (le : α → α → Prop) [DecidableRel le] (a : α)
    (l : List α) : a ∈ sortLE le l ↔ a ∈ l := by
  induction l with
  | nil => simp [sortLE]
  | cons x xs ih =>
    unfold sortLE
    rw [mem_insertLE, ih, List.mem_cons]

theorem dedupGo_subset : ∀ (l : List Mention) (used : List (Nat × Nat)) (x : Mention),
    x ∈ dedupGo l used →
    x ∈ l ∧ ∀ u ∈ used, ¬(u.1 ≤ x.span.1 ∧ x.span.2 ≤ u.2)
  | [], _, x, hx => by cases hx
  | m :: rest, used, x, hx => by
    unfold dedupGo at hx
    split at hx
    · obtain ⟨h1, h2⟩ := dedupGo_subset rest used x hx
      exact ⟨List.mem_cons_of_mem m h1, h2⟩
    · rename_i hskip
      simp only [List.any_eq_true, decide_eq_true_eq, not_exists, not_and] at hskip
      rcases List.mem_cons.mp hx with rfl | hx'
      · exact ⟨List.mem_cons_self _ _, fun u hu hc => hskip u hu hc.1 hc.2⟩
      · obtain ⟨h1, h2⟩ := dedupGo_subset rest (used ++ [m.span]) x hx'
        exact ⟨List.mem_cons_of_mem m h1, fun u hu => h2 u (List.mem_append_left _ hu)⟩

theorem dedupGo_pairwise : ∀ (l : List Mention) (used : List (Nat × Nat)),
    (∀ x ∈ l, x.span.1 ≤ x.span.2) → l.Pairwise foundLE →
    (dedupGo l used).Pairwise MentionSep
  | [], _, _, _ => by simp [dedupGo]
  | m :: rest, used, hwf, hs => by
    obtain ⟨hm, hrest⟩ := List.pairwise_cons.mp hs
    have hwfrest : ∀ x ∈ rest, x.span.1 ≤ x.span.2 :=
      fun x hx => hwf x (List.mem_cons_of_mem m hx)
    unfold dedupGo
    split
    · exact dedupGo_pairwise rest used hwfrest hrest
    · refine List.pairwise_cons.mpr
        ⟨?_, dedupGo_pairwise rest (used ++ [m.span]) hwfrest hrest⟩
      intro b hb
      obtain ⟨hbrest, hbused⟩ := dedupGo_subset rest (used ++ [m.span]) b hb
      have hnc : ¬(m.span.1 ≤ b.span.1 ∧ b.span.2 ≤ m.span.2) :=
        hbused m.span (List.mem_append_right _ (List.mem_singleton.mpr rfl))
      have hle : foundLE m b := hm b hbrest
      have hwm : m.span.1 ≤ m.span.2 := hwf m (List.mem_cons_self _ _)
      have hwb : b.span.1 ≤ b.span.2 := hwfrest b hbrest
      unfold foundLE at hle
      unfold MentionSep
      omega

theorem chopLit_length : ∀ (p cs r : List Char), chopLit p cs = some r →
    cs.length = p.length + r.length
  | [], cs, r, h => by simp [chopLit] at h; simp [h]
  | p :: ps, [], r, h => by simp [chopLit] at h
  | p :: ps, c :: cs, r, h => by
    unfold chopLit at h
    split at h
    · have := chopLit_length ps cs r h
      simp [this]
      omega
    · cases h

theorem litBMatchAt_chop (lit : List Char) (prev : Option Char) (cs : List Char)
    (h : litBMatchAt lit prev cs = true) : ∃ r, chopLit lit cs = some r := by
  unfold litBMatchAt at h
  rcases hc : chopLit lit cs with _ | r
  · rw [hc] at h; cases h
  · exact ⟨r, rfl⟩

theorem finditGo_spans (lit : List Char) :
    ∀ (fuel : Nat) (prev : Option Char) (i : Nat) (cs : List Char),
    ∀ sp ∈ finditGo lit fuel prev i cs, i ≤ sp.1 ∧ sp.1 ≤ sp.2 ∧ sp.2 ≤ i + cs.length
  | 0, _, _, _ => by intro sp hsp; cases hsp
  | fuel + 1, prev, i, [] => by
    intro sp hsp
    unfold finditGo at hsp
    split at hsp
    · rcases List.mem_singleton.mp hsp with rfl
      exact ⟨Nat.le_refl i, Nat.le_refl i, Nat.le_add_right i _⟩
    · cases hsp
  | fuel + 1, prev, i, c :: rest => by
    intro sp hsp
    unfold finditGo at hsp
    split at hsp
    case isTrue hmat =>
      cases lit with
      | nil =>
        rcases List.mem_cons.mp hsp with rfl | hsp2
        · exact ⟨Nat.le_refl i, Nat.le_refl i, Nat.le_add_right i _⟩
        · have hrec := finditGo_spans [] fuel (some c) (i + 1) rest sp hsp2
          simp only [List.length_cons] at hrec ⊢
          omega
      | cons l ls =>
        obtain ⟨r, hr⟩ := litBMatchAt_chop (l :: ls) prev (c :: rest) hmat
        have hlen := chopLit_length (l :: ls) (c :: rest) r hr
        rcases List.mem_cons.mp hsp with rfl | hsp2
        · have h2 : (l :: ls).length ≤ (c :: rest).length := by omega
          exact ⟨Nat.le_refl i, Nat.le_add_right i _, Nat.add_le_add_left h2 i⟩
        · have hrec := finditGo_spans (l :: ls) fuel ((l :: ls).getLast?)
            (i + (l :: ls).length) (rest.drop ls.length) sp hsp2
          simp only [List.length_drop, List.length_cons] at hrec hlen ⊢
          omega
    case isFalse hmat =>
      have hrec := finditGo_spans lit fuel (some c) (i + 1) rest sp hsp
      simp only [List.length_cons] at hrec ⊢
      omega

theorem foundRaw_wf (text : String) (amap : List (String × MarkerDef)) :
    ∀ x ∈ foundRaw text amap, x.span.1 ≤ x.span.2 ∧ x.span.2 ≤ text.length := by
  intro x hx
  unfold foundRaw at hx
  rw [List.mem_flatMap] at hx
  obtain ⟨p, hp, hx2⟩ := hx
  rw [List.mem_map] at hx2
  obtain ⟨sp, hsp, rfl⟩ := hx2
  have hb := finditGo_spans p.1.toList ((lowerList text.toList).length + 1) none 0
    (lowerList text.toList) sp hsp
  have hlen : (lowerList text.toList).length = text.length := by
    rw [lowerList, List.length_map]; rfl
  refine ⟨hb.2.1, ?_⟩
  show sp.2 ≤ text.length
  omega

theorem foundRaw_md (text : String) (amap : List (String × MarkerDef)) :
    ∀ x ∈ foundRaw text amap, ∃ p ∈ amap, x.md = p.2 := by
  intro x hx
  unfold foundRaw at hx
  rw [List.mem_flatMap] at hx
  obtain ⟨p, hp, hx2⟩ := hx
  rw [List.mem_map] at hx2
  obtain ⟨sp, hsp, rfl⟩ := hx2
  exact ⟨p, hp, rfl⟩

theorem findMarkers_subset_foundRaw (text : String) (amap : List (String × MarkerDef)) :
    ∀ x ∈ findMarkers text amap, x ∈ foundRaw text amap := by
  intro x hx
  unfold findMarkers at hx
  exact (mem_sortLE foundLE x _).mp (dedupGo_subset _ _ x hx).1

theorem findMarkers_pairwise (text : String) (amap : List (String × MarkerDef)) :
    (findMarkers text amap).Pairwise MentionSep := by
  unfold findMarkers
  apply dedupGo_pairwise
  · intro x hx
    exact (foundRaw_wf text amap x ((mem_sortLE foundLE x _).mp hx)).1
  · exact sortLE_pairwise foundLE foundLE_total foundLE_trans _

/-- **C3**, corrected: the locator's greedy dedup only discards candidates whose
span is fully contained in an accepted span, so what holds of its output is:
mentions are returned in strictly increasing start order and no span is fully
contained in another — but two partially overlapping spans can both be
accepted, refuting the claimed pairwise non-overlap (see the counterexample). -/
theorem claim_C3 (text : String) (amap : List (String × MarkerDef)) :
    (findMarkers text amap).Pairwise MentionSep :=
  findMarkers_pairwise text amap

/-- Counterexample for C3 as stated: with aliases `"estrogen receptor"` and
`"receptor alpha"`, the clause `"estrogen receptor alpha"` yields the two
accepted spans `[0,17)` and `[9,23)`, which partially overlap. -/
theorem claim_C3_counterexample :
    ((findMarkers "estrogen receptor alpha" (buildAmap [erDef, eraDef])).map
      (fun m => m.span)) = [(0, 17), (9, 23)] ∧
    spansDisjointB ((findMarkers "estrogen receptor alpha"
      (buildAmap [erDef, eraDef])).map (fun m => m.span)) = false :=
  ⟨rfl, rfl⟩

theorem sortLE_startLE_eq_self : ∀ (l : List Mention),
    l.Pairwise (fun a b => a.span.1 < b.span.1) → sortLE startLE l = l
  | [], _ => rfl
  | x :: xs, h => by
    obtain ⟨hx, hxs⟩ := List.pairwise_cons.mp h
    unfold sortLE
    rw [sortLE_startLE_eq_self xs hxs]
    cases xs with
    | nil => rfl
    | cons y ys =>
      unfold insertLE
      have hxy : x.span.1 ≤ y.span.1 := Nat.le_of_lt (hx y (List.mem_cons_self _ _))
      simp [startLE, hxy]

theorem segmentBounds_mem : ∀ (n : Nat) (l : List Mention) (b : Nat × Nat),
    b ∈ segmentBounds n l → ∃ m ∈ l, b.1 = m.span.1
  | _, [], b, h => by cases h
  | n, [m], b, h => by
    rcases List.mem_singleton.mp h with rfl
    exact ⟨m, List.mem_singleton.mpr rfl, rfl⟩
  | n, m :: m' :: rest, b, h => by
    rcases List.mem_cons.mp h with rfl | h2
    · exact ⟨m, List.mem_cons_self _ _, rfl⟩
    · obtain ⟨m2, hm2, hb⟩ := segmentBounds_mem n (m' :: rest) b h2
      exact ⟨m2, List.mem_cons_of_mem m hm2, hb⟩

theorem segmentBounds_length : ∀ (n : Nat) (l : List Mention),
    (segmentBounds n l).length = l.length
  | _, [] => rfl
  | _, [_] => rfl
  | n, _ :: m' :: rest => by
    simp only [segmentBounds, List.length_cons]
    rw [segmentBounds_length n (m' :: rest)]
    rfl

theorem segmentBounds_pairwise : ∀ (n : Nat) (l : List Mention),
    l.Pairwise (fun a b => a.span.1 < b.span.1) →
    (segmentBounds n l).Pairwise (fun a b => a.1 < b.1 ∧ a.2 ≤ b.1)
  | _, [], _ => by simp [segmentBounds]
  | _, [_], _ => by simp [segmentBounds]
  | n, m :: m' :: rest, h => by
    obtain ⟨hm, htail⟩ := List.pairwise_cons.mp h
    obtain ⟨hm', _⟩ := List.pairwise_cons.mp htail
    refine List.pairwise_cons.mpr ⟨?_, segmentBounds_pairwise n (m' :: rest) htail⟩
    intro b hb
    obtain ⟨m2, hm2, hb1⟩ := segmentBounds_mem n (m' :: rest) b hb
    have h1 : m.span.1 < m2.span.1 := hm m2 hm2
    have h2 : m'.span.1 ≤ m2.span.1 := by
      rcases List.mem_cons.mp hm2 with rfl | hm2'
      · exact Nat.le_refl _
      · exact Nat.le_of_lt (hm' m2 hm2')
    exact ⟨by omega, by omega⟩

theorem segmentBounds_chain : ∀ (n : Nat) (l : List Mention),
    (segmentBounds n l).Chain' (fun a b => a.2 = b.1)
  | _, [] => by simp [segmentBounds]
  | _, [_] => by simp [segmentBounds]
  | n, m :: m' :: rest => by
    rcases rest with _ | ⟨m2, rest2⟩
    · simp [segmentBounds]
    · have ih := segmentBounds_chain n (m' :: m2 :: rest2)
      exact List.chain'_cons.mpr ⟨rfl, ih⟩

theorem segmentBounds_wf : ∀ (n : Nat) (l : List Mention),
    l.Pairwise (fun a b => a.span.1 < b.span.1) → (∀ m ∈ l, m.span.1 ≤ n) →
    ∀ b ∈ segmentBounds n l, b.1 ≤ b.2
  | _, [], _, _ => by intro b hb; cases hb
  | n, [m], _, hn => by
    intro b hb
    rcases List.mem_singleton.mp hb with rfl
    exact hn m (List.mem_singleton.mpr rfl)
  | n, m :: m' :: rest, h, hn => by
    intro b hb
    obtain ⟨hm, htail⟩ := List.pairwise_cons.mp h
    rcases List.mem_cons.mp hb with rfl | hb2
    · exact Nat.le_of_lt (hm m' (List.mem_cons_self _ _))
    · exact segmentBounds_wf n (m' :: rest) htail
        (fun x hx => hn x (List.mem_cons_of_mem m hx)) b hb2

theorem segmentBounds_head : ∀ (n : Nat) (l : List Mention),
    ((segmentBounds n l).head?).map (fun b => b.1) = (l.head?).map (fun m => m.span.1)
  | _, [] => rfl
  | _, [_] => rfl
  | _, _ :: _ :: _ => rfl

theorem segmentBounds_last : ∀ (n : Nat) (l : List Mention), l ≠ [] →
    ((segmentBounds n l).getLast?).map (fun b => b.2) = some n
  | _, [], h => absurd rfl h
  | _, [_], _ => rfl
  | n, m :: m' :: rest, _ => by
    have ih := segmentBounds_last n (m' :: rest) (by simp)
    rw [show segmentBounds n (m :: m' :: rest) =
      (m.span.1, m'.span.1) :: segmentBounds n (m' :: rest) from rfl]
    rcases hsb : segmentBounds n (m' :: rest) with _ | ⟨b, bs⟩
    · rw [hsb] at ih; cases ih
    · rw [hsb] at ih
      rw [List.getLast?_cons_cons]
      exact ih

/-- **C5**: for a clause with a non-empty set of located mentions, the scoper
produces one segment per mention; the mentions are already in start order; each
segment is the trimmed substring over its bound; the bounds run from each
mention's start to the next mention's start (clause end for the last), are
well-formed, mutually non-overlapping, contiguous (each segment ends where the
next begins), and exhaustively cover from the first mention's start to the
clause end. -/
theorem claim_C5 (clause : String) (amap : List (String × MarkerDef))
    (mentions : List Mention) (hm : mentions = findMarkers clause amap)
    (hne : mentions ≠ []) :
    sortLE startLE mentions = mentions ∧
    (splitClauseByMarkers clause mentions).length = mentions.length ∧
    splitClauseByMarkers clause mentions =
      (mentions.zip (segmentBounds clause.length mentions)).map (fun p =>
        (p.1.md.marker_canonical, p.1.md.display_name,
         (⟨dropEnds isSegTrim (sliceStr clause p.2.1 p.2.2).toList⟩ : String))) ∧
    (segmentBounds clause.length mentions).Chain' (fun a b => a.2 = b.1) ∧
    (segmentBounds clause.length mentions).Pairwise (fun a b => a.1 < b.1 ∧ a.2 ≤ b.1) ∧
    (∀ b ∈ segmentBounds clause.length mentions, b.1 ≤ b.2) ∧
    ((segmentBounds clause.length mentions).head?).map (fun b => b.1) =
      (mentions.head?).map (fun m => m.span.1) ∧
    ((segmentBounds clause.length mentions).getLast?).map (fun b => b.2) =
      some clause.length := by
  subst hm
  have hsep := findMarkers_pairwise clause amap
  have hstrict : (findMarkers clause amap).Pairwise (fun a b => a.span.1 < b.span.1) :=
    hsep.imp (fun h => h.1)
  have hwf : ∀ m ∈ findMarkers clause amap, m.span.1 ≤ clause.length := by
    intro m hmem
    have := foundRaw_wf clause amap m (findMarkers_subset_foundRaw clause amap m hmem)
    omega
  have hsort := sortLE_startLE_eq_self (findMarkers clause amap) hstrict
  have hie : (findMarkers clause amap).isEmpty = false := by
    rcases hl : findMarkers clause amap with _ | ⟨x, xs⟩
    · exact absurd hl hne
    · rfl
  have hsplit : splitClauseByMarkers clause (findMarkers clause amap) =
      ((findMarkers clause amap).zip
        (segmentBounds clause.length (findMarkers clause amap))).map (fun p =>
        (p.1.md.marker_canonical, p.1.md.display_name,
         (⟨dropEnds isSegTrim (sliceStr clause p.2.1 p.2.2).toList⟩ : String))) := by
    unfold splitClauseByMarkers
    rw [hsort, hie]
    simp
  refine ⟨hsort, ?_, hsplit, segmentBounds_chain _ _,
    segmentBounds_pairwise _ _ hstrict, segmentBounds_wf _ _ hstrict hwf,
    segmentBounds_head _ _, segmentBounds_last _ _ hne⟩
  rw [hsplit, List.length_map, List.length_zip, segmentBounds_length, Nat.min_self]

/-- Witness for C5: the clause `"ttf1 positive, ck7 negative"` with the TTF1
and CK7 aliases. -/
theorem claim_C5_witness :
    (findMarkers "ttf1 positive, ck7 negative" (buildAmap [dTTF1, dCK7]) ≠ []) ∧
    ((splitClauseByMarkers "ttf1 positive, ck7 negative"
        (findMarkers "ttf1 positive, ck7 negative" (buildAmap [dTTF1, dCK7]))).length =
      (findMarkers "ttf1 positive, ck7 negative" (buildAmap [dTTF1, dCK7])).length) :=
  ⟨by decide,
   (claim_C5 "ttf1 positive, ck7 negative" (buildAmap [dTTF1, dCK7]) _ rfl (by decide)).2.1⟩

theorem lookupD_cons {β : Type} (k' : String) (v' : β) (rest : List (String × β))
    (j : String) :
    lookupD ((k', v') :: rest) j = if k' == j then some v' else lookupD rest j := by
  unfold lookupD
  rcases h : k' == j with _ | _
  · rw [List.find?_cons_of_neg _ (by simpa using h)]
    simp [h]
  · rw [List.find?_cons_of_pos _ (by simpa using h)]
    simp [h]

theorem lookupD_dictInsert {β : Type} (k j : String) (v : β)
    (m : List (String × β)) :
    lookupD (dictInsert k v m) j = if j = k then some v else lookupD m j := by
  induction m with
  | nil =>
    show lookupD [(k, v)] j = _
    rw [lookupD_cons]
    by_cases h : j = k
    · subst h
      simp
    · have hb : (k == j) = false := beq_eq_false_iff_ne.mpr (fun he => h he.symm)
      simp [hb, h, lookupD]
  | cons p rest ih =>
    obtain ⟨k', v'⟩ := p
    unfold dictInsert
    by_cases hk : k' = k
    · subst hk
      simp only [eq_self_iff_true, if_true]
      rw [lookupD_cons, lookupD_cons]
      by_cases hj : k' = j
      · subst hj
        simp
      · have hb : (k' == j) = false := beq_eq_false_iff_ne.mpr hj
        have hj2 : ¬j = k' := fun h => hj h.symm
        simp [hb, hj2]
    · simp only [if_neg hk]
      rw [lookupD_cons, lookupD_cons]
      by_cases hj : k' = j
      · subst hj
        simp [hk]
      · have hb : (k' == j) = false := beq_eq_false_iff_ne.mpr hj
        rw [ih]
        simp [hb]

theorem lookupD_dictInsert_preserve {β : Type} (k j : String) (v : β)
    (m : List (String × β)) (h : (lookupD m j).isSome = true) :
    (lookupD (dictInsert k v m) j).isSome = true := by
  rw [lookupD_dictInsert]
  by_cases hj : j = k <;> simp [hj, h]

theorem mem_dictInsert_key {β : Type} (k : String) (v : β) :
    ∀ (m : List (String × β)) (q : String × β), q ∈ dictInsert k v m →
      q.1 = k ∨ q ∈ m
  | [], q, h => by
    rcases List.mem_singleton.mp h with rfl
    exact Or.inl rfl
  | (k', v') :: rest, q, h => by
    unfold dictInsert at h
    split at h
    · rename_i hk
      rcases List.mem_cons.mp h with rfl | h2
      · exact Or.inl hk
      · exact Or.inr (List.mem_cons_of_mem _ h2)
    · rcases List.mem_cons.mp h with rfl | h2
      · exact Or.inr (List.mem_cons_self _ _)
      · rcases mem_dictInsert_key k v rest q h2 with h3 | h3
        · exact Or.inl h3
        · exact Or.inr (List.mem_cons_of_mem _ h3)

theorem mem_dictInsert_val {β : Type} (k : String) (v : β) :
    ∀ (m : List (String × β)) (q : String × β), q ∈ dictInsert k v m →
      q.2 = v ∨ q ∈ m
  | [], q, h => by
    rcases List.mem_singleton.mp h with rfl
    exact Or.inl rfl
  | (k', v') :: rest, q, h => by
    unfold dictInsert at h
    split at h
    · rcases List.mem_cons.mp h with rfl | h2
      · exact Or.inl rfl
      · exact Or.inr (List.mem_cons_of_mem _ h2)
    · rcases List.mem_cons.mp h with rfl | h2
      · exact Or.inr (List.mem_cons_self _ _)
      · rcases mem_dictInsert_val k v rest q h2 with h3 | h3
        · exact Or.inl h3
        · exact Or.inr (List.mem_cons_of_mem _ h3)

theorem lookupD_buildDefsByCan_aux (k : String) :
    ∀ (ds : List MarkerDef) (init : List (String × MarkerDef)),
    ((∃ d ∈ ds, d.marker_canonical = k) ∨ (lookupD init k).isSome = true) →
    (lookupD (ds.foldl (fun m d => dictInsert d.marker_canonical d m) init) k).isSome =
      true
  | [], init, h => by
    rcases h with ⟨d, hd, _⟩ | h
    · cases hd
    · exact h
  | d :: ds, init, h => by
    apply lookupD_buildDefsByCan_aux k ds (dictInsert d.marker_canonical d init)
    rcases h with ⟨d', hd', hk⟩ | h
    · rcases List.mem_cons.mp hd' with rfl | hd2
      · right
        rw [← hk, lookupD_dictInsert_self]
        rfl
      · exact Or.inl ⟨d', hd2, hk⟩
    · exact Or.inr (lookupD_dictInsert_preserve _ _ _ _ h)

theorem lookupD_buildDefsByCan (defs : List MarkerDef) (k : String)
    (h : ∃ d ∈ defs, d.marker_canonical = k) :
    (lookupD (buildDefsByCan defs) k).isSome = true :=
  lookupD_buildDefsByCan_aux k defs [] (Or.inl h)

theorem foldl_aliases_mem (d : MarkerDef) :
    ∀ (as : List String) (init : List (String × MarkerDef)) (p : String × MarkerDef),
    p ∈ as.foldl (fun m' a => dictInsert (normAlias a) d m') init → p.2 = d ∨ p ∈ init
  | [], _, p, h => Or.inr h
  | a :: as, init, p, h => by
    rcases foldl_aliases_mem d as (dictInsert (normAlias a) d init) p h with h2 | h2
    · exact Or.inl h2
    · exact mem_dictInsert_val _ _ _ _ h2

theorem buildAmap_mem_aux :
    ∀ (ds : List MarkerDef) (init : List (String × MarkerDef)) (p : String × MarkerDef),
    p ∈ ds.foldl (fun m d => d.aliases.foldl (fun m' a => dictInsert (normAlias a) d m') m)
      init →
    (∃ d ∈ ds, p.2 = d) ∨ p ∈ init
  | [], _, p, h => Or.inr h
  | d :: ds, init, p, h => by
    rcases buildAmap_mem_aux ds
      (d.aliases.foldl (fun m' a => dictInsert (normAlias a) d m') init) p h with h2 | h2
    · obtain ⟨d', hd', he⟩ := h2
      exact Or.inl ⟨d', List.mem_cons_of_mem d hd', he⟩
    · rcases foldl_aliases_mem d d.aliases init p h2 with h3 | h3
      · exact Or.inl ⟨d, List.mem_cons_self _ _, h3⟩
      · exact Or.inr h3

theorem buildAmap_mem (defs : List MarkerDef) :
    ∀ p ∈ buildAmap defs, p.2 ∈ defs := by
  intro p hp
  rcases buildAmap_mem_aux defs [] p hp with ⟨d, hd, he⟩ | h
  · rw [he]; exact hd
  · cases h

theorem splitClauseByMarkers_canonical (clause : String)
    (amap : List (String × MarkerDef)) (s : String × String × String)
    (hs : s ∈ splitClauseByMarkers clause (findMarkers clause amap)) :
    ∃ p ∈ amap, s.1 = p.2.marker_canonical := by
  unfold splitClauseByMarkers at hs
  split at hs
  · cases hs
  · rw [List.mem_map] at hs
    obtain ⟨q, hq, rfl⟩ := hs
    have hmem : q.1 ∈ sortLE startLE (findMarkers clause amap) := (List.of_mem_zip hq).1
    rw [mem_sortLE] at hmem
    obtain ⟨p, hp, he⟩ :=
      foundRaw_md clause amap q.1 (findMarkers_subset_foundRaw clause amap q.1 hmem)
    exact ⟨p, hp, by rw [he]⟩

theorem processSegment_markers_key (clauseData : Extracted) (negFor : Bool)
    (acc : EngineAcc) (seg : String × String × String) :
    ∀ p ∈ (processSegment clauseData negFor acc seg).markers,
      p.1 = seg.1 ∨ p ∈ acc.markers := by
  intro p hp
  exact mem_dictInsert_key _ _ _ _ hp

theorem foldl_processSegment_markers (clauseData : Extracted) (negFor : Bool)
    (Q : String → Prop) :
    ∀ (segs : List (String × String × String)) (acc : EngineAcc),
    (∀ s ∈ segs, Q s.1) → (∀ p ∈ acc.markers, Q p.1) →
    ∀ p ∈ (segs.foldl (processSegment clauseData negFor) acc).markers, Q p.1
  | [], acc, _, hacc, p, hp => hacc p hp
  | s :: segs, acc, hsegs, hacc, p, hp => by
    apply foldl_processSegment_markers clauseData negFor Q segs
      (processSegment clauseData negFor acc s)
      (fun s' hs' => hsegs s' (List.mem_cons_of_mem s hs'))
      (fun q hq => by
        rcases processSegment_markers_key clauseData negFor acc s q hq with h | h
        · rw [h]; exact hsegs s (List.mem_cons_self _ _)
        · exact hacc q h)
      p hp

theorem processClause_markers (amap : List (String × MarkerDef)) (Q : String → Prop)
    (hQ : ∀ p ∈ amap, Q p.2.marker_canonical) (acc : EngineAcc) (clause : String)
    (hacc : ∀ p ∈ acc.markers, Q p.1) :
    ∀ p ∈ (processClause amap acc clause).markers, Q p.1 := by
  intro p hp
  have hm : (processClause amap acc clause).markers =
      ((splitClauseByMarkers clause (findMarkers clause amap)).foldl
        (processSegment (extractClauseData clause)
          (containsAlt NEGFOR_ALTS (lowerList clause.toList))) acc).markers := by
    unfold processClause
    dsimp only
    split <;> rfl
  rw [hm] at hp
  apply foldl_processSegment_markers (extractClauseData clause)
    (containsAlt NEGFOR_ALTS (lowerList clause.toList)) Q
    (splitClauseByMarkers clause (findMarkers clause amap)) acc ?hsegs hacc p hp
  case hsegs =>
    intro s hs
    obtain ⟨q, hq, he⟩ := splitClauseByMarkers_canonical clause amap s hs
    rw [he]
    exact hQ q hq

theorem foldl_processClause_markers (amap : List (String × MarkerDef))
    (Q : String → Prop) (hQ : ∀ p ∈ amap, Q p.2.marker_canonical) :
    ∀ (clauses : List String) (acc : EngineAcc), (∀ p ∈ acc.markers, Q p.1) →
    ∀ p ∈ (clauses.foldl (processClause amap) acc).markers, Q p.1
  | [], _, hacc, p, hp => hacc p hp
  | c :: cs, acc, hacc, p, hp =>
    foldl_processClause_markers amap Q hQ cs (processClause amap acc c)
      (processClause_markers amap Q hQ acc c hacc) p hp

theorem validateAll_isOk (dbc : List (String × MarkerDef)) :
    ∀ (markers : List (String × MarkerState)) (es ws : List Issue),
    (∀ p ∈ markers, (lookupD dbc p.1).isSome = true) →
    ∃ r, validateAll dbc markers es ws = Except.ok r
  | [], es, ws, _ => ⟨(es, ws), rfl⟩
  | (can, ms) :: rest, es, ws, h => by
    have hsome := h (can, ms) (List.mem_cons_self _ _)
    rcases hl : lookupD dbc can with _ | md
    · rw [hl] at hsome; cases hsome
    · obtain ⟨r, hr⟩ := validateAll_isOk dbc rest
        (es ++ (validateMarker md can ms).1) (ws ++ (validateMarker md can ms).2)
        (fun p hp => h p (List.mem_cons_of_mem _ hp))
      exact ⟨r, by unfold validateAll; rw [hl]; exact hr⟩

theorem caseAcc_markers (case : CaseInput) (defs : List MarkerDef) :
    ∀ p ∈ (caseAcc case defs).markers, ∃ d ∈ defs, d.marker_canonical = p.1 := by
  intro p hp
  unfold caseAcc at hp
  exact foldl_processClause_markers (buildAmap defs)
    (fun k => ∃ d ∈ defs, d.marker_canonical = k)
    (fun q hq => ⟨q.2, buildAmap_mem defs q hq, rfl⟩)
    (splitClauses (stripRaw case)) _ (fun q hq => by cases hq) p hp

/-- **C8**: for every case record with the required fields (encoded in the
`CaseInput` structure: `input_id`, `input_type`, a string `raw_text`, and
`context` absent or a mapping) and every parsed dictionary, `process_case`
returns an output without raising, whatever the clinical text: the only
fallible step, the `defs_by_can[can]` lookup of line 268, always succeeds
because every merged marker comes from the alias map built over the same
definitions. -/
theorem claim_C8 (u : String) (case : CaseInput) (defs : List MarkerDef) :
    ∃ out, processCaseE u case defs = Except.ok out := by
  obtain ⟨r, hr⟩ := validateAll_isOk (buildDefsByCan defs) (caseAcc case defs).markers
    (caseErrors0 case defs) (caseAcc case defs).warnings
    (fun p hp => lookupD_buildDefsByCan defs p.1 (caseAcc_markers case defs p hp))
  refine ⟨assembleOut u case (caseAcc case defs) r.1 r.2, ?_⟩
  unfold processCaseE caseValidated
  rw [hr]

theorem segment_warnings_aux (can : String) (d : Extracted) (ms : MarkerState)
    (w : List Issue) :
    ∃ t, mergeRestWarnings d can (inferenceStep can d ms w).2.2 = w ++ t ∧
      ∀ i ∈ t, i.code = "RESULT_INFERRED" ∨ i.code = "LOW_CONFIDENCE" ∨
        i.code = "PERCENT_APPROXIMATE" := by
  unfold inferenceStep
  split
  · obtain ⟨t, ht, hc⟩ := mergeRestWarnings_spec d can (w ++ [resultInferredIssue can])
    refine ⟨resultInferredIssue can :: t, ?_, ?_⟩
    · show mergeRestWarnings d can (w ++ [resultInferredIssue can]) = _
      rw [ht]
      simp
    · intro i hi
      rcases List.mem_cons.mp hi with rfl | h2
      · exact Or.inl rfl
      · rcases hc i h2 with h3 | h3
        · exact Or.inr (Or.inl h3)
        · exact Or.inr (Or.inr h3)
  · obtain ⟨t, ht, hc⟩ := mergeRestWarnings_spec d can w
    refine ⟨t, ht, ?_⟩
    intro i hi
    rcases hc i hi with h3 | h3
    · exact Or.inr (Or.inl h3)
    · exact Or.inr (Or.inr h3)

theorem processSegment_warnings (clauseData : Extracted) (negFor : Bool)
    (acc : EngineAcc) (seg : String × String × String) :
    ∃ t, (processSegment clauseData negFor acc seg).warnings = acc.warnings ++ t ∧
      ∀ i ∈ t, i.code = "RESULT_INFERRED" ∨ i.code = "LOW_CONFIDENCE" ∨
        i.code = "PERCENT_APPROXIMATE" := by
  unfold processSegment
  exact segment_warnings_aux seg.1 _ _ acc.warnings

theorem foldl_processSegment_warnings (clauseData : Extracted) (negFor : Bool) :
    ∀ (segs : List (String × String × String)) (acc : EngineAcc),
    ∃ t, (segs.foldl (processSegment clauseData negFor) acc).warnings =
        acc.warnings ++ t ∧
      ∀ i ∈ t, i.code = "RESULT_INFERRED" ∨ i.code = "LOW_CONFIDENCE" ∨
        i.code = "PERCENT_APPROXIMATE"
  | [], acc => ⟨[], by simp, by intro i hi; cases hi⟩
  | s :: segs, acc => by
    obtain ⟨t1, ht1, hc1⟩ := processSegment_warnings clauseData negFor acc s
    obtain ⟨t2, ht2, hc2⟩ := foldl_processSegment_warnings clauseData negFor segs
      (processSegment clauseData negFor acc s)
    refine ⟨t1 ++ t2, ?_, ?_⟩
    · rw [List.foldl_cons, ht2, ht1, List.append_assoc]
    · intro i hi
      rcases List.mem_append.mp hi with h2 | h2
      · exact hc1 i h2
      · exact hc2 i h2

theorem processClause_warnings (amap : List (String × MarkerDef)) (acc : EngineAcc)
    (clause : String) :
    ∃ t, (processClause amap acc clause).warnings = acc.warnings ++ t ∧
      ∀ i ∈ t, i.code = "RESULT_INFERRED" ∨ i.code = "LOW_CONFIDENCE" ∨
        i.code = "PERCENT_APPROXIMATE" := by
  have hw : (processClause amap acc clause).warnings =
      ((splitClauseByMarkers clause (findMarkers clause amap)).foldl
        (processSegment (extractClauseData clause)
          (containsAlt NEGFOR_ALTS (lowerList clause.toList))) acc).warnings := by
    unfold processClause
    dsimp only
    split <;> rfl
  rw [hw]
  exact foldl_processSegment_warnings _ _ _ _

theorem foldl_processClause_warnings (amap : List (String × MarkerDef)) :
    ∀ (clauses : List String) (acc : EngineAcc),
    ∃ t, (clauses.foldl (processClause amap) acc).warnings = acc.warnings ++ t ∧
      ∀ i ∈ t, i.code = "RESULT_INFERRED" ∨ i.code = "LOW_CONFIDENCE" ∨
        i.code = "PERCENT_APPROXIMATE"
  | [], acc => ⟨[], by simp, by intro i hi; cases hi⟩
  | c :: cs, acc => by
    obtain ⟨t1, ht1, hc1⟩ := processClause_warnings amap acc c
    obtain ⟨t2, ht2, hc2⟩ := foldl_processClause_warnings amap cs (processClause amap acc c)
    refine ⟨t1 ++ t2, ?_, ?_⟩
    · rw [List.foldl_cons, ht2, ht1, List.append_assoc]
    · intro i hi
      rcases List.mem_append.mp hi with h2 | h2
      · exact hc1 i h2
      · exact hc2 i h2

theorem validateMarker_warn_codes (md : MarkerDef) (can : String) (ms : MarkerState) :
    ∀ i ∈ (validateMarker md can ms).2,
      i.code = "UNUSUAL_PATTERN" ∨ i.code = "PERCENT_REQUIRED_MISSING" := by
  intro i hi
  unfold validateMarker at hi
  rcases List.mem_append.mp hi with h | h
  · unfold patIssues at h
    rcases hp : ms.pattern with _ | pat <;> rw [hp] at h <;> dsimp only at h
    · cases h
    · split_ifs at h
      · cases h
      · cases h
      · rcases List.mem_singleton.mp h with rfl
        exact Or.inl rfl
  · unfold prIssues at h
    split_ifs at h
    · rcases List.mem_singleton.mp h with rfl
      exact Or.inr rfl
    · cases h
    · cases h

theorem validateAll_warnings (dbc : List (String × MarkerDef)) :
    ∀ (markers : List (String × MarkerState)) (es ws : List Issue)
      (r : List Issue × List Issue), validateAll dbc markers es ws = Except.ok r →
    ∃ t, r.2 = ws ++ t ∧
      ∀ i ∈ t, i.code = "UNUSUAL_PATTERN" ∨ i.code = "PERCENT_REQUIRED_MISSING"
  | [], es, ws, r, h => by
    unfold validateAll at h
    simp only [Except.ok.injEq] at h
    exact ⟨[], by rw [← h]; simp, by intro i hi; cases hi⟩
  | (can, ms) :: rest, es, ws, r, h => by
    unfold validateAll at h
    rcases hl : lookupD dbc can with _ | md <;> rw [hl] at h
    · cases h
    · obtain ⟨t, ht, hc⟩ := validateAll_warnings dbc rest
        (es ++ (validateMarker md can ms).1) (ws ++ (validateMarker md can ms).2) r h
      refine ⟨(validateMarker md can ms).2 ++ t, ?_, ?_⟩
      · rw [ht, List.append_assoc]
      · intro i hi
        rcases List.mem_append.mp hi with h2 | h2
        · exact validateMarker_warn_codes md can ms i h2
        · exact hc i h2

theorem isDiag_false_of_code (i : Issue)
    (hc : i.code ≠ "DIAGNOSTIC_LANGUAGE_DETECTED") : isDiag i = false :=
  beq_eq_false_iff_ne.mpr hc

/-- **C10**: the count of `DIAGNOSTIC_LANGUAGE_DETECTED` warnings in the output
is one exactly when the stripped raw text matches the diagnostic regex and zero
otherwise (no other condition emits this code); when it matches, the warning —
whose marker scope is null — is the head of the warnings list (it is appended
before any clause is processed), and the case status is not `"ok"`. -/
theorem claim_C10 (u : String) (case : CaseInput) (defs : List MarkerDef)
    (out : CaseOutput) (h : processCaseE u case defs = Except.ok out) :
    (out.warnings.countP isDiag = if diagB case then 1 else 0) ∧
    diagnosticIssue.marker_canonical = none ∧
    (diagB case = true →
      out.warnings.head? = some diagnosticIssue ∧ out.status ≠ "ok") := by
  obtain ⟨es, ws, hval, hout⟩ := processCaseE_ok_out u case defs out h
  unfold caseValidated at hval
  obtain ⟨t2, ht2, hc2⟩ := validateAll_warnings (buildDefsByCan defs)
    (caseAcc case defs).markers (caseErrors0 case defs) (caseAcc case defs).warnings
    (es, ws) hval
  obtain ⟨t1, ht1, hc1⟩ := foldl_processClause_warnings (buildAmap defs)
    (splitClauses (stripRaw case))
    ⟨[], [], if diagB case then [diagnosticIssue] else []⟩
  have hca : (caseAcc case defs).warnings =
      (if diagB case then [diagnosticIssue] else []) ++ t1 := by
    unfold caseAcc
    exact ht1
  have hws : ws = (if diagB case then [diagnosticIssue] else []) ++ (t1 ++ t2) := by
    have : ws = (caseAcc case defs).warnings ++ t2 := ht2
    rw [this, hca, List.append_assoc]
  have hno : ∀ i ∈ t1 ++ t2, isDiag i = false := by
    intro i hi
    rcases List.mem_append.mp hi with h2 | h2
    · rcases hc1 i h2 with h3 | h3 | h3 <;>
        exact isDiag_false_of_code i (by rw [h3]; decide)
    · rcases hc2 i h2 with h3 | h3 <;>
        exact isDiag_false_of_code i (by rw [h3]; decide)
  have hzero : (t1 ++ t2).countP isDiag = 0 :=
    List.countP_eq_zero.mpr (fun i hi => by rw [hno i hi]; exact Bool.false_ne_true)
  have hwarn : out.warnings = ws := by rw [hout]; rfl
  have hstat : out.status = computeStatus es ws := by rw [hout]; rfl
  refine ⟨?_, rfl, ?_⟩
  · rw [hwarn, hws, List.countP_append, hzero]
    rcases hd : diagB case with _ | _
    · simp
    · simp [isDiag, diagnosticIssue]
  · intro hd
    rw [hwarn, hws, hd]
    constructor
    · rfl
    · rw [hstat]
      intro hok
      have := ((computeStatus_spec es ws).2.2.mp hok).2
      rw [hws, hd] at this
      simp at this

/-- Witness for C10: the case `"primary"` against the empty dictionary. -/
theorem claim_C10_witness :
    processCaseE "u" ⟨"c", "t", "primary", none⟩ [] = Except.ok wOutC10 ∧
    ((wOutC10.warnings.countP isDiag =
        if diagB ⟨"c", "t", "primary", none⟩ then 1 else 0) ∧
     diagnosticIssue.marker_canonical = none ∧
     (diagB ⟨"c", "t", "primary", none⟩ = true →
       wOutC10.warnings.head? = some diagnosticIssue ∧ wOutC10.status ≠ "ok")) :=
  ⟨rfl, claim_C10 "u" ⟨"c", "t", "primary", none⟩ [] wOutC10 rfl⟩

end IHC
